import Mathlib

/-!
# quic-benchmarks: acknowledgment frames, flood engine and sweep drivers

A shallow embedding of `server/server.go` (`pad`, the echo handlers) and
`client/client.go` (`flood`, `min`, `report`, the six sweep drivers).

Bytes are natural numbers below 256.  A Go `[]byte` is a `List Nat`.
-/

set_option linter.unusedVariables false

namespace QuicBench

/-! ## Constants (`client.go` lines 29-33, `server.go` line 24) -/

/-- Source constant `initialMessageSize`: 1 byte. -/
def initialMessageSize : Nat := 1

/-- Source constant `finalMessageSize`: 64 MiB. -/
def finalMessageSize : Nat := 67108864

/-- Source constant `bufferMaxSize`: 1 MiB. -/
def bufferMaxSize : Nat := 1048576

/-- Source constant `filesToSend`: repetitions per size. -/
def filesToSend : Nat := 10

/-! ## Acknowledgment frame: encoding (`server.go`) -/

/-- Loop of the decimal formatter: emits the digits of `n`, most significant
first, in front of `acc`.  The first argument bounds the number of digits. -/
def fmtDecimal : Nat → Nat → List Nat → List Nat
  | 0, _, acc => acc
  | fuel + 1, n, acc =>
    if n < 10 then (48 + n) :: acc
    else fmtDecimal fuel (n / 10) ((48 + n % 10) :: acc)

/-- Go `fmt.Sprintf("%d", n)` for a non-negative `n` (a byte count returned by
`Read`, or `len(responseData)`), as the bytes of the resulting text. -/
def sprintfD (n : Nat) : List Nat := fmtDecimal (n + 1) n []

/-- Source `pad` (`server.go` 266-274).  `make([]byte, size)` is `size` zero
bytes and `copy(tmp[size-l:], bb)` overwrites its tail; the slice expression
`tmp[size-l:]` panics when `l > size`, which is the `none` result. -/
def pad (bb : List Nat) (size : Nat) : Option (List Nat) :=
  let l := bb.length
  if l = size then some bb
  else if size < l then none
  else some (List.replicate (size - l) 0 ++ bb)

/-- The acknowledgment the echo side writes for `size` received bytes
(`handleQuicStream`, `handleTcp`, `EchoHandler`):
`pad([]byte(fmt.Sprintf("%d", size)), 8)`. -/
def ackFrame (size : Nat) : Option (List Nat) := pad (sprintfD size) 8

/-! ## Acknowledgment frame: decoding (`client.go` 258-260)

`bytes.Trim` and `strconv.Atoi` belong to the Go standard library; they are
modelled from their library source. -/

/-- Go `bytes.trimRightByte`: drop trailing bytes equal to `c`. -/
def trimRightByte (s : List Nat) (c : Nat) : List Nat :=
  (s.reverse.dropWhile (fun b => b == c)).reverse

/-- Go `bytes.trimLeftByte`: drop leading bytes equal to `c`. -/
def trimLeftByte (s : List Nat) (c : Nat) : List Nat :=
  s.dropWhile (fun b => b == c)

/-- Go `bytes.Trim(s, cutset)` for a cutset of one ASCII byte `c`:
`trimLeftByte(trimRightByte(s, c), c)`. -/
def bytesTrim (s : List Nat) (c : Nat) : List Nat :=
  trimLeftByte (trimRightByte s c) c

/-- Digit loop of the fast path of `strconv.Atoi`: `ch -= '0'` on a byte
(modulo 256), `if ch > 9` a syntax error (`none`), else `n = n*10 + int(ch)`. -/
def atoiDigits : List Nat → Nat → Option Nat
  | [], n => some n
  | ch :: rest, n =>
    let d := (ch + 256 - 48) % 256
    if d > 9 then none else atoiDigits rest (n * 10 + d)

/-- Digit loop of `strconv.ParseUint(s, 10, 64)`: the first component is the
value, the second tells whether an error was returned.  A byte that is not a
decimal digit is a syntax error (value 0); a value above `2^64 - 1` is a range
error (value `2^64 - 1`).  The loop stops at the first of the two. -/
def parseUintLoop : List Nat → Nat → Nat × Bool
  | [], n => (n, false)
  | c :: rest, n =>
    if 48 ≤ c ∧ c ≤ 57 then
      if n ≥ (2 ^ 64 - 1) / 10 + 1 then (2 ^ 64 - 1, true)
      else if n * 10 + (c - 48) > 2 ^ 64 - 1 then (2 ^ 64 - 1, true)
      else parseUintLoop rest (n * 10 + (c - 48))
    else (0, true)

/-- Go `strconv.ParseInt(s, 10, 0)` with 64-bit `int`: value and error flag. -/
def parseInt (s : List Nat) : Int × Bool :=
  match s with
  | [] => (0, true)
  | c :: rest =>
    let neg := c == 45
    let body := if c == 43 ∨ c == 45 then rest else s
    match body with
    | [] => (0, true)
    | _ :: _ =>
      let r := parseUintLoop body 0
      if r.2 ∧ r.1 ≠ 2 ^ 64 - 1 then (0, true)
      else if ¬ neg ∧ r.1 ≥ 2 ^ 63 then (2 ^ 63 - 1, true)
      else if neg ∧ r.1 > 2 ^ 63 then (-(2 ^ 63), true)
      else (if neg then -(r.1 : Int) else (r.1 : Int), false)

/-- Go `strconv.Atoi` with 64-bit `int`: the value and whether an error was
returned.  Strings of 1 to 18 bytes take the fast path (an optional sign, then
digits; value 0 on a syntax error); the others go through `ParseInt`. -/
def atoi (s : List Nat) : Int × Bool :=
  if 0 < s.length ∧ s.length < 19 then
    let signed := s.head? = some 45 ∨ s.head? = some 43
    let body := if signed then s.tail else s
    if signed ∧ body.length < 1 then (0, true)
    else
      match atoiDigits body 0 with
      | none => (0, true)
      | some n => (if s.head? = some 45 then -(n : Int) else (n : Int), false)
  else parseInt s

/-- Decoding step of the flood receiver (`client.go` 258-259):
`sizeString := string(bytes.Trim(buf, "\x00"))`,
`sizeRecv, _ := strconv.Atoi(sizeString)`; the error is discarded. -/
def decodeAck (buf : List Nat) : Int := (atoi (bytesTrim buf 0)).1

/-! ## The flood engine (`client.go` 219-278)

`flood` starts a sender and a receiver goroutine on the same channel and waits
for one value from each of `finishedSend` and `finishedRecv`.  Each goroutine
is deterministic in the results its own calls return, so the channel is given
as two scripts: `write k` is what the `k`-th call of `write` returns and
`read k` what the `k`-th call of `read` returns (both counted from 0). -/

/-- Outcome of running a piece of the program: `done a` when it finished with
result `a`; `panic` for a Go run-time panic (slice bounds out of range);
`pending` when it has not finished, because the loop is still running when the
step budget is used up or because the caller is blocked on a channel nobody
sends on. -/
inductive Run (α : Type) where
  | done (a : α)
  | panic
  | pending
  deriving DecidableEq, Repr

/-- A Go slice of `dataBuffer`: `dataBuffer[off : off+len]`. -/
structure Slice where
  off : Nat
  len : Nat
  deriving DecidableEq, Repr

/-- What one call `write(data)` returns: `n` and whether `err != nil`. -/
structure WriteResult where
  n : Nat
  err : Bool
  deriving DecidableEq, Repr

/-- What one call `read(buf)` does: the bytes it stores at the start of `buf`
and whether `err != nil`. -/
structure ReadResult where
  data : List Nat
  err : Bool
  deriving DecidableEq, Repr

/-- Source `min` (`client.go` 737-743). -/
def min (a : Nat) (b : Nat) : Nat :=
  if a < b then a else b

/-- State of the sender goroutine when it is done: the slices handed to
`write` in order, `totalSent`, `left`, and the values it sends on `finished`
(the caller receives only the first). -/
structure SendState where
  writes : List Slice
  totalSent : Nat
  left : Nat
  signals : List Bool
  deriving DecidableEq, Repr

/-- The sender loop `for left > 0` (`client.go` 229-243).  The first argument
bounds the number of iterations; `ws` are the slices written so far, so the
next call of `write` is call number `ws.length`.  The slice expression
`dataBuffer[totalSent : totalSent+current]` panics beyond the buffer. -/
def senderLoop (dataBuffer : List Nat) (write : Nat → WriteResult) :
    Nat → Nat → Nat → List Slice → Run SendState
  | 0, left, totalSent, ws =>
    if left > 0 then Run.pending else Run.done ⟨ws, totalSent, left, [true]⟩
  | fuel + 1, left, totalSent, ws =>
    if left > 0 then
      let current := min left bufferMaxSize
      if totalSent + current ≤ dataBuffer.length then
        if (write ws.length).err then
          Run.done ⟨ws ++ [⟨totalSent, current⟩], totalSent, left, [false, true]⟩
        else
          senderLoop dataBuffer write fuel (left - current) (totalSent + current)
            (ws ++ [⟨totalSent, current⟩])
      else Run.panic
    else Run.done ⟨ws, totalSent, left, [true]⟩

/-- The sender goroutine of `flood`: `totalSent := 0`, `left := size`.  Every
iteration that continues lowers `left` by at least 1, so `size` iterations
are enough. -/
def sender (dataBuffer : List Nat) (size : Nat) (write : Nat → WriteResult) : Run SendState :=
  senderLoop dataBuffer write size size 0 []

/-- Go `int` addition on a 64-bit machine: the sum wrapped into
`[-2^63, 2^63)`. -/
def wrapInt64 (x : Int) : Int := (x + 2 ^ 63) % 2 ^ 64 - 2 ^ 63

/-- The buffer `buf := make([]byte, 8)` after `read(buf)` stored `data` in it. -/
def fillBuf (data : List Nat) : List Nat :=
  data.take 8 ++ List.replicate (8 - data.length) 0

/-- State of the receiver goroutine when it is done: `received`, the number
of calls of `read` it made, and the values it sends on `finished`. -/
structure RecvState where
  received : Int
  reads : Nat
  signals : List Bool
  deriving DecidableEq, Repr

/-- The receiver loop `for received < size` (`client.go` 249-262).  The first
argument bounds the number of iterations, `k` counts the calls of `read`. -/
def receiverLoop (size : Nat) (read : Nat → ReadResult) :
    Nat → Int → Nat → Run RecvState
  | 0, received, k =>
    if received < (size : Int) then Run.pending else Run.done ⟨received, k, [true]⟩
  | fuel + 1, received, k =>
    if received < (size : Int) then
      if (read k).err then
        Run.done ⟨received, k + 1, [false, true]⟩
      else
        receiverLoop size read fuel
          (wrapInt64 (received + decodeAck (fillBuf (read k).data))) (k + 1)
    else Run.done ⟨received, k, [true]⟩

/-- The receiver goroutine of `flood`: `received := 0`. -/
def receiver (size : Nat) (read : Nat → ReadResult) (fuel : Nat) : Run RecvState :=
  receiverLoop size read fuel 0 0

/-- The text of `fmt.Sprintf("%d", n)` as a string. -/
def decimalString (n : Nat) : String :=
  String.mk ((sprintfD n).map Char.ofNat)

/-- The end of `flood` (`client.go` 272-277): `nil` (here `none`) when
`sendOk && recvOk`, else `fmt.Errorf("%s: %d did not finish ", protocol, size)`. -/
def floodReturn (protocol : String) (size : Nat) (sendOk : Bool) (recvOk : Bool) :
    Option String :=
  if sendOk && recvOk then none
  else some (protocol ++ ": " ++ decimalString size ++ " did not finish ")

/-- Source `flood`.  `sendOk := <-finishedSend` and `recvOk := <-finishedRecv`
take the first value each goroutine sends; a goroutine that never sends leaves
the caller blocked.  `fuel` bounds the iterations of the receiver loop. -/
def flood (dataBuffer : List Nat) (protocol : String) (environment : String) (size : Nat)
    (write : Nat → WriteResult) (read : Nat → ReadResult) (fuel : Nat) : Run (Option String) :=
  match sender dataBuffer size write with
  | Run.panic => Run.panic
  | Run.pending => Run.pending
  | Run.done s =>
    match receiver size read fuel with
    | Run.panic => Run.panic
    | Run.pending => Run.pending
    | Run.done r =>
      match s.signals, r.signals with
      | sendOk :: _, recvOk :: _ => Run.done (floodReturn protocol size sendOk recvOk)
      | _, _ => Run.pending

/-! ## The sweep drivers (`client.go` 280-732) and `report` (`client.go` 51-82)

A driver is run against a `World` that answers its external calls.  Every
payload size is visited at most once in a run, so the answers are indexed by
the size of the iteration (and the repetition number).  A transfer is
represented by whether it returns and by what it returns; `flood` does not
return when its receiver never sends its signal, and the reads of the probes
and of `floodHttp` have no deadline either.  The run yields the trace of the
calls that matter here and the way the driver ends.  Timing, `Close` calls
and the numbers inside a report have no influence on the control flow and are
left out. -/

/-- Answers of the outside world to one run of a sweep driver.  An error is
`some message`, `nil` is `none`.  `memoryGet size after` and `cpuGet size
after` are the results of `memory.Get()` and `cpu.Get()` in the iteration for
`size`, before (`false`) or after (`true`) the batch; `dial` is `quic.DialAddr`,
`net.Dial` or `tls.Dial`; `firstByteReturns size` tells whether the probe
`getFirstByte` or `getFirstByteHttp` of that iteration returns at all (its
result is discarded by the drivers); `floodReturns size fileNum` and
`floodHttpReturns size fileNum` tell whether the invocation number `fileNum`
of `flood` or `floodHttp` returns at all, and `floodErr size fileNum` and
`floodHttpErr size fileNum` are what it returns when it does; `lastWriter
size` picks the goroutine whose assignment to the shared `err` comes last in
a multiplexed batch; `openFile size` is the error of `os.OpenFile` in the
`report` for `size`. -/
structure World where
  memoryGet : Nat → Bool → Option String
  cpuGet : Nat → Bool → Option String
  dial : Nat → Option String
  openStreamSync : Nat → Option String
  floodErr : Nat → Nat → Option String
  floodHttpErr : Nat → Nat → Option String
  lastWriter : Nat → Nat
  openFile : Nat → Option String
  floodReturns : Nat → Nat → Bool
  floodHttpReturns : Nat → Nat → Bool
  firstByteReturns : Nat → Bool

/-- Calls recorded in the trace of a driver: the two probes, the line
`floodStart := time.Now()` that opens a batch, the transfers, the
`fmt.Println(err)` after a failed batch, the call of `report` (one Trial) and
the record `report` appends to the CSV file. -/
inductive Event where
  | getFirstByte (protocol : String)
  | getFirstByteHttp (protocol : String)
  | floodStart (size : Nat)
  | flood (protocol : String) (size : Nat) (fileNum : Nat)
  | floodHttp (protocol : String) (size : Nat) (sizeIndex : Nat) (fileNum : Nat)
  | println (err : String)
  | report (protocol : String) (environment : String) (kind : String) (filesToSend : Nat)
      (size : Nat)
  | csvRecord (protocol : String) (kind : String) (environment : String) (filesToSend : Nat)
      (size : Nat)
  deriving DecidableEq, Repr

/-- How one iteration of a driver loop ends: it reaches `size *= 2`, it
returns an error from the driver, it panics, or it never ends because a
transfer it waits for does not return. -/
inductive Step where
  | next
  | ret (err : String)
  | panic
  | blocked
  deriving DecidableEq, Repr

/-- Source `report` (`client.go` 51-82): the console line is always printed;
for `size >= 32` the CSV file is opened, `panic(err)` if that fails, and one
record is appended.  The second component tells whether it panicked. -/
def report (w : World) (protocol : String) (environment : String) (kind : String)
    (filesToSend : Nat) (size : Nat) : List Event × Bool :=
  if size ≥ 32 then
    match w.openFile size with
    | some _ => ([Event.report protocol environment kind filesToSend size], true)
    | none =>
      ([Event.report protocol environment kind filesToSend size,
        Event.csvRecord protocol kind environment filesToSend size], false)
  else ([Event.report protocol environment kind filesToSend size], false)

/-- The two samples that open an iteration: `memory.Get()` then `cpu.Get()`,
each returning its error to the caller of the driver. -/
def sampleBefore (w : World) (size : Nat) : Option String :=
  match w.memoryGet size false with
  | some err2 => some err2
  | none => w.cpuGet size false

/-- The loop `for fileNum := 0; fileNum < filesToSend; fileNum++ { err =
flood(...) }` of the raw drivers: the first argument is the number of
iterations left, the last the current value of `err`.  The result is the
value of `err` after the loop, or `none` when an invocation does not return
and the loop never ends. -/
def floodBatch (protocol : String) (returns : Nat → Bool) (res : Nat → Option String)
    (size : Nat) : Nat → Nat → Option String → List Event × Option (Option String)
  | 0, _, err => ([], some err)
  | remaining + 1, fileNum, _ =>
    if returns fileNum then
      let rest := floodBatch protocol returns res size remaining (fileNum + 1) (res fileNum)
      (Event.flood protocol size fileNum :: rest.1, rest.2)
    else ([Event.flood protocol size fileNum], none)

/-- The same loop around `floodHttp` (sequential branch of the HTTP drivers). -/
def floodHttpBatch (protocol : String) (returns : Nat → Bool) (res : Nat → Option String)
    (size : Nat) (sizeIndex : Nat) :
    Nat → Nat → Option String → List Event × Option (Option String)
  | 0, _, err => ([], some err)
  | remaining + 1, fileNum, _ =>
    if returns fileNum then
      let rest :=
        floodHttpBatch protocol returns res size sizeIndex remaining (fileNum + 1) (res fileNum)
      (Event.floodHttp protocol size sizeIndex fileNum :: rest.1, rest.2)
    else ([Event.floodHttp protocol size sizeIndex fileNum], none)

/-- The multiplexed branch: one goroutine per `fileNum` is started and assigns
its result to the shared `err`; `wg.Wait()` ends once every goroutine has
returned, and the variable then holds the assignment that came last (`nil`
when no goroutine was started).  The result is `none` when a goroutine does
not return and `wg.Wait()` never ends. -/
def floodHttpMultiplex (protocol : String) (returns : Nat → Bool) (res : Nat → Option String)
    (lastWriter : Nat) (size : Nat) (sizeIndex : Nat) (multiFilesToSend : Nat) :
    List Event × Option (Option String) :=
  ((List.range multiFilesToSend).map (fun fileNum => Event.floodHttp protocol size sizeIndex fileNum),
    if (List.range multiFilesToSend).all returns then
      some (if multiFilesToSend = 0 then none else res (lastWriter % multiFilesToSend))
    else none)

/-- What every driver does after the batch (`client.go` 325-340 and its five
copies): with `err != nil` print it; else sample `cpu.Get()` and
`memory.Get()`, returning their errors, and call `report`. -/
def finishBatch (w : World) (protocol : String) (environment : String) (kind : String)
    (n : Nat) (size : Nat) (err : Option String) : List Event × Step :=
  match err with
  | some e => ([Event.println e], Step.next)
  | none =>
    match w.cpuGet size true with
    | some err1 => ([], Step.ret err1)
    | none =>
      match w.memoryGet size true with
      | some err2 => ([], Step.ret err2)
      | none =>
        let rep := report w protocol environment kind n size
        (rep.1, if rep.2 then Step.panic else Step.next)

/-- One iteration of the loop of `clientQuicMain` (`client.go` 292-340): its
events and how it ends. -/
def quicIteration (w : World) (environment : String) (size : Nat) : List Event × Step :=
  match sampleBefore w size with
  | some e => ([], Step.ret e)
  | none =>
    match w.dial size with
    | some e => ([], Step.ret e)
    | none =>
      match w.openStreamSync size with
      | some e => ([], Step.ret e)
      | none =>
        if w.firstByteReturns size then
          let batch :=
            floodBatch "QUIC" (w.floodReturns size) (w.floodErr size) size filesToSend 0 none
          match batch.2 with
          | none => (Event.getFirstByte "QUIC" :: Event.floodStart size :: batch.1, Step.blocked)
          | some err =>
            let fin := finishBatch w "QUIC" environment "Raw" filesToSend size err
            (Event.getFirstByte "QUIC" :: Event.floodStart size :: batch.1 ++ fin.1, fin.2)
        else ([Event.getFirstByte "QUIC"], Step.blocked)

/-- One iteration of the loop of `clientTcpMain` (`client.go` 353-395) and of
`clientTcpTlsMain` (`client.go` 413-455), which differ in the protocol name
and the dial function only. -/
def tcpIteration (protocolName : String) (w : World) (environment : String) (size : Nat) :
    List Event × Step :=
  match sampleBefore w size with
  | some e => ([], Step.ret e)
  | none =>
    match w.dial size with
    | some e => ([], Step.ret e)
    | none =>
      if w.firstByteReturns size then
        let batch :=
          floodBatch protocolName (w.floodReturns size) (w.floodErr size) size filesToSend 0 none
        match batch.2 with
        | none =>
          (Event.getFirstByte protocolName :: Event.floodStart size :: batch.1, Step.blocked)
        | some err =>
          let fin := finishBatch w protocolName environment "Raw" filesToSend size err
          (Event.getFirstByte protocolName :: Event.floodStart size :: batch.1 ++ fin.1, fin.2)
      else ([Event.getFirstByte protocolName], Step.blocked)

/-- One iteration of the loop of `clientHttpMain` (`client.go` 518-559). -/
def httpIteration (w : World) (environment : String) (size : Nat) (sizeIndex : Nat) :
    List Event × Step :=
  match sampleBefore w size with
  | some e => ([], Step.ret e)
  | none =>
    if w.firstByteReturns size then
      let batch :=
        floodHttpBatch "HTTP/1" (w.floodHttpReturns size) (w.floodHttpErr size) size sizeIndex
          filesToSend 0 none
      match batch.2 with
      | none => (Event.getFirstByteHttp "HTTP/1" :: Event.floodStart size :: batch.1, Step.blocked)
      | some err =>
        let fin := finishBatch w "HTTP/1" environment "HTTP" filesToSend size err
        (Event.getFirstByteHttp "HTTP/1" :: Event.floodStart size :: batch.1 ++ fin.1, fin.2)
    else ([Event.getFirstByteHttp "HTTP/1"], Step.blocked)

/-- One iteration of the loop of `clientHttpsMain` (`client.go` 586-640) and
of `clientHttp3Main` (`client.go` 669-725); `protocolName` already carries the
suffix of the multiplexed variant. -/
def multiIteration (protocolName : String) (w : World) (environment : String)
    (multiplex : Bool) (multiFilesToSend : Nat) (size : Nat) (sizeIndex : Nat) :
    List Event × Step :=
  match sampleBefore w size with
  | some e => ([], Step.ret e)
  | none =>
    if w.firstByteReturns size then
      let batch :=
        if multiplex then
          floodHttpMultiplex protocolName (w.floodHttpReturns size) (w.floodHttpErr size)
            (w.lastWriter size) size sizeIndex multiFilesToSend
        else
          floodHttpBatch protocolName (w.floodHttpReturns size) (w.floodHttpErr size) size
            sizeIndex multiFilesToSend 0 none
      match batch.2 with
      | none =>
        (Event.getFirstByteHttp protocolName :: Event.floodStart size :: batch.1, Step.blocked)
      | some err =>
        let fin := finishBatch w protocolName environment "HTTP" multiFilesToSend size err
        (Event.getFirstByteHttp protocolName :: Event.floodStart size :: batch.1 ++ fin.1, fin.2)
    else ([Event.getFirstByteHttp protocolName], Step.blocked)

/-- The loop `for size <= finalMessageSize { ...; size *= 2 }` of the raw
drivers around an iteration `body`, followed by `return nil`: the trace and
the way the driver ends (`Run.done err` for `return err`, `Run.pending` when
an iteration never ends).  The first argument bounds the number of
iterations. -/
def rawSweep (body : Nat → List Event × Step) : Nat → Nat → List Event × Run (Option String)
  | 0, size => ([], if size ≤ finalMessageSize then Run.pending else Run.done none)
  | fuel + 1, size =>
    if size ≤ finalMessageSize then
      match body size with
      | (evs, Step.next) =>
        let rest := rawSweep body fuel (size * 2)
        (evs ++ rest.1, rest.2)
      | (evs, Step.ret e) => (evs, Run.done (some e))
      | (evs, Step.panic) => (evs, Run.panic)
      | (evs, Step.blocked) => (evs, Run.pending)
    else ([], Run.done none)

/-- The loop `for size <= finalMessageSize { ...; size *= 2; sizeIndex++ }` of
the HTTP drivers. -/
def httpSweep (body : Nat → Nat → List Event × Step) :
    Nat → Nat → Nat → List Event × Run (Option String)
  | 0, size, _ => ([], if size ≤ finalMessageSize then Run.pending else Run.done none)
  | fuel + 1, size, sizeIndex =>
    if size ≤ finalMessageSize then
      match body size sizeIndex with
      | (evs, Step.next) =>
        let rest := httpSweep body fuel (size * 2) (sizeIndex + 1)
        (evs ++ rest.1, rest.2)
      | (evs, Step.ret e) => (evs, Run.done (some e))
      | (evs, Step.panic) => (evs, Run.panic)
      | (evs, Step.blocked) => (evs, Run.pending)
    else ([], Run.done none)

/-- Source `clientQuicMain`.  The size starts at `initialMessageSize` and at
least doubles, so `finalMessageSize + 1` iterations are enough. -/
def clientQuicMain (w : World) (environment : String) : List Event × Run (Option String) :=
  rawSweep (quicIteration w environment) (finalMessageSize + 1) initialMessageSize

/-- Source `clientTcpMain`. -/
def clientTcpMain (w : World) (environment : String) : List Event × Run (Option String) :=
  rawSweep (tcpIteration "TCP" w environment) (finalMessageSize + 1) initialMessageSize

/-- Source `clientTcpTlsMain`. -/
def clientTcpTlsMain (w : World) (environment : String) : List Event × Run (Option String) :=
  rawSweep (tcpIteration "TCP_TLS" w environment) (finalMessageSize + 1) initialMessageSize

/-- Source `clientHttpMain`. -/
def clientHttpMain (w : World) (environment : String) : List Event × Run (Option String) :=
  httpSweep (httpIteration w environment) (finalMessageSize + 1) initialMessageSize 0

/-- Source `clientHttpsMain`. -/
def clientHttpsMain (w : World) (environment : String) (multiplex : Bool)
    (multiFilesToSend : Nat) : List Event × Run (Option String) :=
  httpSweep
    (multiIteration (if multiplex then "HTTP/2" ++ " (Multiplex)" else "HTTP/2") w environment
      multiplex multiFilesToSend)
    (finalMessageSize + 1) initialMessageSize 0

/-- Source `clientHttp3Main`. -/
def clientHttp3Main (w : World) (environment : String) (multiplex : Bool)
    (multiFilesToSend : Nat) : List Event × Run (Option String) :=
  httpSweep
    (multiIteration (if multiplex then "HTTP/3 (QUIC)" ++ " (Multiplex)" else "HTTP/3 (QUIC)") w
      environment multiplex multiFilesToSend)
    (finalMessageSize + 1) initialMessageSize 0

/-- The size of a batch start, for a `floodStart` event. -/
def batchSizeOf : Event → Option Nat
  | Event.floodStart size => some size
  | _ => none

/-- The sizes at which a driver started a batch, read off its trace. -/
def batchSizes (tr : List Event) : List Nat := tr.filterMap batchSizeOf

/-- Size and repetition number of an invocation of `flood` or `floodHttp`. -/
def floodCallOf : Event → Option (Nat × Nat)
  | Event.flood _ size fileNum => some (size, fileNum)
  | Event.floodHttp _ size _ fileNum => some (size, fileNum)
  | _ => none

/-- The `flood` and `floodHttp` invocations of a trace as pairs of size and
repetition number, in order. -/
def floodCalls (tr : List Event) : List (Nat × Nat) := tr.filterMap floodCallOf

/-- The size of a `report` event. -/
def reportedSizeOf : Event → Option Nat
  | Event.report _ _ _ _ size => some size
  | _ => none

/-- The sizes for which a trace holds a `report` (a Trial), in order. -/
def reportedSizes (tr : List Event) : List Nat := tr.filterMap reportedSizeOf

/-- A world in which connection setup and resource sampling succeed. -/
def World.setupOk (w : World) : Prop :=
  ∀ size, (∀ after, w.memoryGet size after = none) ∧ (∀ after, w.cpuGet size after = none) ∧
    w.dial size = none ∧ w.openStreamSync size = none

/-- A world in which `report` can open its CSV file. -/
def World.reportOk (w : World) : Prop := ∀ size, w.openFile size = none

/-- A world in which every transfer returns, with success or with a failure:
the probe that opens an iteration and every invocation of `flood` and
`floodHttp`. -/
def World.transfersReturn (w : World) : Prop :=
  ∀ size fileNum, w.firstByteReturns size = true ∧ w.floodReturns size fileNum = true ∧
    w.floodHttpReturns size fileNum = true

/-! ## Payload slices and the HTTP payload table (`client.go` 101-121, 232, 484) -/

/-- The bytes of the Go slice `dataBuffer[off : off+len]`. -/
def sliceBytes (dataBuffer : List Nat) (sl : Slice) : List Nat :=
  (dataBuffer.drop sl.off).take sl.len

/-- The counts `n` returned by the first `calls` calls of `write`. -/
def acceptedCounts (write : Nat → WriteResult) (calls : Nat) : List Nat :=
  (List.range calls).map (fun k => (write k).n)

/-- The first loop of `main` on the table (`client.go` 105-110):
`for size <= finalMessageSize { size *= 2; i++ }`, giving the final `i`.  The
first argument bounds the number of iterations. -/
def countSizes : Nat → Nat → Nat → Nat
  | 0, _, i => i
  | fuel + 1, size, i =>
    if size ≤ finalMessageSize then countSizes fuel (size * 2) (i + 1) else i

/-- Source variable `finalIteraction` of `main`: the count of the first loop
started at `size := 1`, `i := 0`. -/
def finalIteraction : Nat := countSizes (finalMessageSize + 1) 1 0

/-- The second loop of `main` on the table (`client.go` 116-121):
`httpByteBuffer[i] = make([]byte, size); rand.Read(httpByteBuffer[i]);
size *= 2; i++`.  `rand i p` is the random byte stored at position `p` of
entry `i`; the index expression panics beyond the table.  The first argument
bounds the number of iterations. -/
def fillTable (rand : Nat → Nat → Nat) :
    Nat → Nat → Nat → List (List Nat) → Run (List (List Nat))
  | 0, size, _, table => if size ≤ finalMessageSize then Run.pending else Run.done table
  | fuel + 1, size, i, table =>
    if size ≤ finalMessageSize then
      if i < table.length then
        fillTable rand fuel (size * 2) (i + 1) (table.set i ((List.range size).map (rand i)))
      else Run.panic
    else Run.done table

/-- The table `httpByteBuffer` as `main` builds it (`client.go` 113-121):
`make([][]byte, finalIteraction)`, then the filling loop from `size = 1`,
`i = 0`. -/
def httpByteBuffer (rand : Nat → Nat → Nat) : Run (List (List Nat)) :=
  fillTable rand (finalMessageSize + 1) 1 0 (List.replicate finalIteraction [])

/-- The request body of source `floodHttp` (`client.go` 484):
`bytes.NewReader(httpByteBuffer[sizeIndex])`; `none` when the index expression
panics. -/
def floodHttpBody (table : List (List Nat)) (sizeIndex : Nat) : Option (List Nat) :=
  table[sizeIndex]?

/-- Size and table index of an invocation of `floodHttp`. -/
def floodHttpCallOf : Event → Option (Nat × Nat)
  | Event.floodHttp _ size sizeIndex _ => some (size, sizeIndex)
  | _ => none

/-! ## Specification predicates -/

/-- The list `ds` is the decimal text of `n`: ASCII digits, most significant
first, no leading zero unless `n < 10`. -/
structure IsDecimalOf (ds : List Nat) (n : Nat) : Prop where
  ne : ds ≠ []
  digit : ∀ b ∈ ds, 48 ≤ b ∧ b ≤ 57
  value : ∀ m, atoiDigits ds m = some (m * 10 ^ ds.length + n)
  lt : n < 10 ^ ds.length
  tight : ds.length = 1 ∨ 10 ^ (ds.length - 1) ≤ n
  pos : ∀ i, i < ds.length → ds.reverse[i]? = some (48 + n / 10 ^ i % 10)

/-- A well-formed acknowledgment frame in the words of the specification:
8 bytes, one to eight ASCII decimal digits preceded by zero bytes that fill
the field. -/
def wellFormedAck (buf : List Nat) : Prop :=
  buf.length = 8 ∧ buf.dropWhile (fun b => b == 0) ≠ [] ∧
    ∀ b ∈ buf.dropWhile (fun b => b == 0), 48 ≤ b ∧ b ≤ 57

instance wellFormedAckDecidable (buf : List Nat) : Decidable (wellFormedAck buf) := by
  unfold wellFormedAck
  infer_instance

/-- The short texts `strconv.Atoi` takes for a number: an optional sign `'-'`
(45) or `'+'` (43) followed by one or more ASCII decimal digits. -/
def signedDecimal (s : List Nat) : Prop :=
  (if s.head? = some 45 ∨ s.head? = some 43 then s.tail else s) ≠ [] ∧
    ∀ b ∈ (if s.head? = some 45 ∨ s.head? = some 43 then s.tail else s), 48 ≤ b ∧ b ≤ 57

instance signedDecimalDecidable (s : List Nat) : Decidable (signedDecimal s) := by
  unfold signedDecimal
  infer_instance

/-- The values the loop variable `size` takes in
`for size <= finalMessageSize { ...; size *= 2 }`, for a bounded number of
iterations. -/
def doubling : Nat → Nat → List Nat
  | 0, _ => []
  | fuel + 1, size => if size ≤ finalMessageSize then size :: doubling fuel (size * 2) else []

/-- The values of `size` and `sizeIndex` in the loop of the HTTP drivers. -/
def doublingIdx : Nat → Nat → Nat → List (Nat × Nat)
  | 0, _, _ => []
  | fuel + 1, size, sizeIndex =>
    if size ≤ finalMessageSize then (size, sizeIndex) :: doublingIdx fuel (size * 2) (sizeIndex + 1)
    else []

/-- The sweep `1, 2, 4, ..., 2^26`. -/
def sweepSizes : List Nat := (List.range 27).map (fun i => 2 ^ i)

/-- A driver run that returns `nil` after starting batches at exactly `sizes`. -/
def RunsBatchesAt (run : List Event × Run (Option String)) (sizes : List Nat) : Prop :=
  run.2 = Run.done none ∧ batchSizes run.1 = sizes

/-- A driver run that returns `nil` after making exactly the invocations
`calls` of `flood` or `floodHttp`. -/
def MakesFloodCalls (run : List Event × Run (Option String)) (calls : List (Nat × Nat)) : Prop :=
  run.2 = Run.done none ∧ floodCalls run.1 = calls

/-- A world where setup, sampling and the CSV file succeed and every transfer
succeeds but the first repetition (`fileNum = 0`) at size 1. -/
def worldFirstFails : World where
  memoryGet := fun _ _ => none
  cpuGet := fun _ _ => none
  dial := fun _ => none
  openStreamSync := fun _ => none
  floodErr := fun size fileNum =>
    if size = 1 ∧ fileNum = 0 then some "QUIC: 1 did not finish " else none
  floodHttpErr := fun size fileNum =>
    if size = 1 ∧ fileNum = 0 then some "Post: connection reset" else none
  lastWriter := fun _ => 0
  openFile := fun _ => none
  floodReturns := fun _ _ => true
  floodHttpReturns := fun _ _ => true
  firstByteReturns := fun _ => true

/-- A world where setup, sampling and every transfer succeed but the CSV file
of `report` cannot be opened. -/
def worldNoCsv : World where
  memoryGet := fun _ _ => none
  cpuGet := fun _ _ => none
  dial := fun _ => none
  openStreamSync := fun _ => none
  floodErr := fun _ _ => none
  floodHttpErr := fun _ _ => none
  lastWriter := fun _ => 0
  openFile := fun _ => some "open /var/log/output/meter_Local.csv: no such file or directory"
  floodReturns := fun _ _ => true
  floodHttpReturns := fun _ _ => true
  firstByteReturns := fun _ => true

/-- The events after a batch when sampling and the CSV file succeed: the
printed error of a failed batch, or the report (with its CSV record from
32 bytes on). -/
def afterBatch (protocol : String) (environment : String) (kind : String) (n : Nat) (size : Nat)
    (err : Option String) : List Event :=
  match err with
  | some e => [Event.println e]
  | none =>
    if size ≥ 32 then
      [Event.report protocol environment kind n size,
        Event.csvRecord protocol kind environment n size]
    else [Event.report protocol environment kind n size]

/-- The characters `cs` are the decimal text of `n`, stated digit by digit:
at least one character, as many as `n` has digits, and the character `i`
places from the end is `'0'` plus the `i`-th decimal digit of `n`. -/
def IsDecimalText (cs : List Char) (n : Nat) : Prop :=
  1 ≤ cs.length ∧ n < 10 ^ cs.length ∧ (cs.length = 1 ∨ 10 ^ (cs.length - 1) ≤ n) ∧
    ∀ i, i < cs.length → cs.reverse[i]? = some (Char.ofNat (48 + n / 10 ^ i % 10))

/-- A world where setup, sampling, the CSV file and every transfer succeed,
but the first repetition at size 4 never returns. -/
def worldBlocked : World where
  memoryGet := fun _ _ => none
  cpuGet := fun _ _ => none
  dial := fun _ => none
  openStreamSync := fun _ => none
  floodErr := fun _ _ => none
  floodHttpErr := fun _ _ => none
  lastWriter := fun _ => 0
  openFile := fun _ => none
  floodReturns := fun size fileNum => !(size == 4 && fileNum == 0)
  floodHttpReturns := fun size fileNum => !(size == 4 && fileNum == 0)
  firstByteReturns := fun _ => true

/-- A world where setup, sampling, the CSV file and every transfer succeed,
but the probe that opens the iteration at size 4 never returns. -/
def worldProbeBlocked : World where
  memoryGet := fun _ _ => none
  cpuGet := fun _ _ => none
  dial := fun _ => none
  openStreamSync := fun _ => none
  floodErr := fun _ _ => none
  floodHttpErr := fun _ _ => none
  lastWriter := fun _ => 0
  openFile := fun _ => none
  floodReturns := fun _ _ => true
  floodHttpReturns := fun _ _ => true
  firstByteReturns := fun size => !(size == 4)

/-- A world where setup, sampling and the CSV file succeed and, at size 1,
every transfer on the stream returns a failure (the stream stays broken);
at the other sizes every transfer succeeds. -/
def worldStreamBroken : World where
  memoryGet := fun _ _ => none
  cpuGet := fun _ _ => none
  dial := fun _ => none
  openStreamSync := fun _ => none
  floodErr := fun size _ => if size = 1 then some "QUIC: 1 did not finish " else none
  floodHttpErr := fun _ _ => none
  lastWriter := fun _ => 0
  openFile := fun _ => none
  floodReturns := fun _ _ => true
  floodHttpReturns := fun _ _ => true
  firstByteReturns := fun _ => true

/-- In the list `calls` of transfers invoked, a repetition that returns is
followed by the next one: whenever repetition `j` at a size was invoked and
returns, and `j + 1 < n`, repetition `j + 1` at that size was invoked too. -/
def NextRepetitionFollows (returns : Nat → Nat → Bool) (n : Nat) (calls : List (Nat × Nat)) :
    Prop :=
  ∀ size j, (size, j) ∈ calls → returns size j = true → j + 1 < n → (size, j + 1) ∈ calls

/-! ## Lemmas on the acknowledgment frame -/

theorem atoiDigits_append (a b : List Nat) (m : Nat) :
    atoiDigits (a ++ b) m = (atoiDigits a m).bind (atoiDigits b) := by
  induction a generalizing m with
  | nil => simp [atoiDigits]
  | cons x t ih =>
    simp only [List.cons_append, atoiDigits]
    split
    · simp
    · exact ih _

theorem atoiDigits_digit (d m : Nat) (hd : d < 10) :
    atoiDigits [48 + d] m = some (m * 10 + d) := by
  have h : (48 + d + 256 - 48) % 256 = d := by omega
  simp [atoiDigits, h]
  omega

theorem fmtDecimal_spec : ∀ (fuel n : Nat) (acc : List Nat), n < fuel →
    ∃ ds, fmtDecimal fuel n acc = ds ++ acc ∧ IsDecimalOf ds n := by
  intro fuel
  induction fuel with
  | zero => intro n acc h; omega
  | succ fuel ih =>
    intro n acc h
    by_cases h10 : n < 10
    · refine ⟨[48 + n], by simp [fmtDecimal, h10], ?_⟩
      refine ⟨by simp, ?_, ?_, by simpa using h10, Or.inl rfl, ?_⟩
      · intro b hb
        simp at hb
        omega
      · intro m
        rw [atoiDigits_digit n m h10]
        simp
      · intro i hi
        simp at hi
        subst hi
        simp
        omega
    · have hlt : n / 10 < fuel := by omega
      obtain ⟨ds, hds, hspec⟩ := ih (n / 10) ((48 + n % 10) :: acc) hlt
      refine ⟨ds ++ [48 + n % 10], by simp [fmtDecimal, h10, hds], ?_⟩
      have hlen : 1 ≤ ds.length := by
        cases ds with
        | nil => exact absurd rfl hspec.ne
        | cons _ _ => simp
      refine ⟨by simp, ?_, ?_, ?_, ?_, ?_⟩
      · intro b hb
        simp at hb
        rcases hb with hb | hb
        · exact hspec.digit b hb
        · omega
      · intro m
        rw [atoiDigits_append, hspec.value m]
        show atoiDigits [48 + n % 10] _ = _
        rw [atoiDigits_digit _ _ (Nat.mod_lt _ (by decide))]
        congr 1
        simp only [List.length_append, List.length_singleton, pow_succ]
        have := Nat.div_add_mod n 10
        nlinarith [this]
      · have := hspec.lt
        simp only [List.length_append, List.length_singleton, pow_succ]
        omega
      · right
        simp only [List.length_append, List.length_singleton, Nat.add_sub_cancel]
        rcases hspec.tight with h1 | h1
        · rw [h1]; omega
        · obtain ⟨k, hk⟩ : ∃ k, ds.length = k + 1 := ⟨ds.length - 1, by omega⟩
          rw [hk] at h1 ⊢
          simp only [Nat.add_sub_cancel] at h1
          rw [pow_succ]
          omega
      · intro i hi
        simp only [List.reverse_append, List.reverse_cons, List.reverse_nil, List.nil_append,
          List.singleton_append]
        cases i with
        | zero => simp
        | succ i =>
          simp only [List.length_append, List.length_singleton] at hi
          rw [List.getElem?_cons_succ, hspec.pos i (by omega)]
          rw [Nat.pow_succ, Nat.mul_comm, Nat.div_div_eq_div_mul]

theorem sprintfD_spec (n : Nat) : IsDecimalOf (sprintfD n) n := by
  obtain ⟨ds, hds, hspec⟩ := fmtDecimal_spec (n + 1) n [] (Nat.lt_succ_self n)
  have : sprintfD n = ds := by simp [sprintfD, hds]
  rw [this]
  exact hspec

theorem IsDecimalOf.length_le {ds : List Nat} {n : Nat} (h : IsDecimalOf ds n) (k : Nat)
    (hk : 1 ≤ k) (hn : n < 10 ^ k) : ds.length ≤ k := by
  rcases h.tight with h1 | h1
  · omega
  · by_contra hcon
    have hle : k ≤ ds.length - 1 := by omega
    have := Nat.pow_le_pow_right (by decide : 0 < 10) hle
    omega

theorem pad_of_le (bb : List Nat) (size : Nat) (h : bb.length ≤ size) :
    pad bb size = some (List.replicate (size - bb.length) 0 ++ bb) := by
  unfold pad
  by_cases heq : bb.length = size
  · simp [heq]
  · have : ¬ size < bb.length := by omega
    simp [heq, this]

theorem dropWhile_zero_replicate_append (k : Nat) (ds : List Nat) :
    (List.replicate k 0 ++ ds).dropWhile (fun b => b == 0) = ds.dropWhile (fun b => b == 0) := by
  induction k with
  | zero => simp
  | succ k ih => simp [List.replicate_succ, List.dropWhile_cons, ih]

theorem dropWhile_zero_of_head (ds : List Nat) (h : ∀ x, ds.head? = some x → x ≠ 0) :
    ds.dropWhile (fun b => b == 0) = ds := by
  cases ds with
  | nil => rfl
  | cons x t =>
    have hx : x ≠ 0 := h x rfl
    simp [List.dropWhile_cons, hx]

theorem trimRightByte_of_last (s : List Nat) (h : ∀ x, s.getLast? = some x → x ≠ 0) :
    trimRightByte s 0 = s := by
  unfold trimRightByte
  rw [dropWhile_zero_of_head]
  · simp
  · intro x hx
    apply h
    simpa [List.head?_reverse] using hx

/-- Trimming a run of zero bytes followed by non-zero bytes leaves the latter. -/
theorem bytesTrim_zeros_append (k : Nat) (ds : List Nat) (hne : ds ≠ [])
    (hnz : ∀ b ∈ ds, b ≠ 0) : bytesTrim (List.replicate k 0 ++ ds) 0 = ds := by
  unfold bytesTrim trimLeftByte
  rw [trimRightByte_of_last, dropWhile_zero_replicate_append, dropWhile_zero_of_head]
  · intro x hx
    exact hnz x (List.mem_of_mem_head? hx)
  · intro x hx
    rw [List.getLast?_append_of_ne_nil _ hne] at hx
    exact hnz x (List.mem_of_getLast?_eq_some hx)

theorem atoi_decimal (ds : List Nat) (n : Nat) (h : IsDecimalOf ds n) (hlen : ds.length ≤ 8) :
    atoi ds = ((n : Int), false) := by
  have hpos : 0 < ds.length := List.length_pos.mpr h.ne
  have hhead : ¬ (ds.head? = some 45 ∨ ds.head? = some 43) := by
    intro hs
    rcases hs with hs | hs
    · have := h.digit 45 (List.mem_of_mem_head? hs); omega
    · have := h.digit 43 (List.mem_of_mem_head? hs); omega
  have h45 : ¬ ds.head? = some 45 := fun hs => hhead (Or.inl hs)
  have h43 : ¬ ds.head? = some 43 := fun hs => hhead (Or.inr hs)
  have hv := h.value 0
  simp only [Nat.zero_mul, Nat.zero_add] at hv
  unfold atoi
  have hc : 0 < ds.length ∧ ds.length < 19 := ⟨hpos, by omega⟩
  simp only [hc, and_self, if_true, if_false, false_and, hv, h45, h43, or_self]

/-- The frame written for a count below `10^8` and what decoding it gives. -/
theorem ackFrame_decode (c : Nat) (h : c ≤ 99999999) :
    ackFrame c = some (List.replicate (8 - (sprintfD c).length) 0 ++ sprintfD c) ∧
      (sprintfD c).length ≤ 8 ∧
      decodeAck (List.replicate (8 - (sprintfD c).length) 0 ++ sprintfD c) = (c : Int) := by
  have hs := sprintfD_spec c
  have hlen : (sprintfD c).length ≤ 8 := hs.length_le 8 (by decide) (by omega)
  refine ⟨pad_of_le _ _ hlen, hlen, ?_⟩
  unfold decodeAck
  rw [bytesTrim_zeros_append _ _ hs.ne, atoi_decimal _ _ hs hlen]
  intro b hb
  have := hs.digit b hb
  omega

/-! ## Claims on the acknowledgment frame -/

/-- C1 (acknowledgment round trip): for every count `c` with
`0 ≤ c ≤ 64*1024*1024`, the server's encoding `pad(Sprintf("%d", c), 8)` is an
8-byte frame, and the flood receiver's decoding of that frame (trim zero
bytes on both sides, then `Atoi`) gives exactly `c`. -/
theorem ack_round_trip (c : Nat) (h : c ≤ 64 * 1024 * 1024) :
    ∃ frame, pad (sprintfD c) 8 = some frame ∧ frame.length = 8 ∧
      decodeAck frame = (c : Int) := by
  obtain ⟨hframe, hlen, hdec⟩ := ackFrame_decode c (by omega)
  refine ⟨_, hframe, ?_, hdec⟩
  simp only [List.length_append, List.length_replicate]
  omega

/-- Instance of the round trip at `c = 1 MiB`. -/
theorem ack_round_trip_witness :
    1048576 ≤ 64 * 1024 * 1024 ∧
      ∃ frame, pad (sprintfD 1048576) 8 = some frame ∧ frame.length = 8 ∧
        decodeAck frame = ((1048576 : Nat) : Int) :=
  ⟨by decide, ack_round_trip 1048576 (by decide)⟩

/-- C2 (acknowledgment frame format): for every count `c ≤ 99999999`, with `d`
the number of digits of its decimal text (`1 ≤ d ≤ 8`, `c < 10^d`, and
`10^(d-1) ≤ c` unless `d = 1`), `pad(decimal(c), 8)` is exactly 8 bytes long,
its first `8-d` bytes are the zero byte (not the character `'0'` = 48), and its
last `d` bytes are the ASCII decimal digits of `c`: the byte `i` places from
the end is `'0'` plus the `i`-th decimal digit of `c`. -/
theorem ack_frame_format (c : Nat) (h : c ≤ 99999999) :
    ∃ frame, pad (sprintfD c) 8 = some frame ∧ frame.length = 8 ∧
      1 ≤ (sprintfD c).length ∧ (sprintfD c).length ≤ 8 ∧
      c < 10 ^ (sprintfD c).length ∧
      ((sprintfD c).length = 1 ∨ 10 ^ ((sprintfD c).length - 1) ≤ c) ∧
      frame.drop (8 - (sprintfD c).length) = sprintfD c ∧
      (∀ i, i < 8 - (sprintfD c).length → frame[i]? = some 0) ∧
      (∀ i, i < (sprintfD c).length → frame[7 - i]? = some (48 + c / 10 ^ i % 10)) := by
  obtain ⟨hframe, hlen, -⟩ := ackFrame_decode c h
  have hs := sprintfD_spec c
  have hpos : 0 < (sprintfD c).length := List.length_pos.mpr hs.ne
  refine ⟨_, hframe, ?_, hpos, hlen, hs.lt, hs.tight, ?_, ?_, ?_⟩
  · simp only [List.length_append, List.length_replicate]
    omega
  · rw [List.drop_append_of_le_length (by simp)]
    simp
  · intro i hi
    rw [List.getElem?_append_left (by simpa using hi)]
    simp [List.getElem?_replicate, hi]
  · intro i hi
    rw [List.getElem?_append_right (by simp; omega)]
    rw [← hs.pos i hi, List.getElem?_reverse hi]
    congr 1
    simp only [List.length_replicate]
    omega

/-- Instance of the frame format at `c = 1048576` (seven digits). -/
theorem ack_frame_format_witness :
    1048576 ≤ 99999999 ∧
    ∃ frame, pad (sprintfD 1048576) 8 = some frame ∧ frame.length = 8 ∧
      1 ≤ (sprintfD 1048576).length ∧ (sprintfD 1048576).length ≤ 8 ∧
      1048576 < 10 ^ (sprintfD 1048576).length ∧
      ((sprintfD 1048576).length = 1 ∨ 10 ^ ((sprintfD 1048576).length - 1) ≤ 1048576) ∧
      frame.drop (8 - (sprintfD 1048576).length) = sprintfD 1048576 ∧
      (∀ i, i < 8 - (sprintfD 1048576).length → frame[i]? = some 0) ∧
      (∀ i, i < (sprintfD 1048576).length →
        frame[7 - i]? = some (48 + 1048576 / 10 ^ i % 10)) :=
  ⟨by decide, ack_frame_format 1048576 (by decide)⟩

/-! ## Lemmas on the flood engine -/

theorem min_eq (a b : Nat) : min a b = if a < b then a else b := rfl

/-- The sender loop on a channel whose writes all succeed: it ends with
success after writing consecutive slices that cover `left` bytes. -/
theorem senderLoop_all_ok (dataBuffer : List Nat) (write : Nat → WriteResult)
    (hw : ∀ k, (write k).err = false) :
    ∀ (fuel left totalSent : Nat) (ws : List Slice), left ≤ fuel →
      totalSent + left ≤ dataBuffer.length →
      ∃ new, senderLoop dataBuffer write fuel left totalSent ws =
          Run.done ⟨ws ++ new, totalSent + left, 0, [true]⟩ ∧
        new.length = (left + 1048575) / 1048576 ∧
        (∀ sl ∈ new, 1 ≤ sl.len ∧ sl.len ≤ 1048576) ∧
        (new.map Slice.len).sum = left ∧
        (∀ k, k < new.length →
          new[k]? = some ⟨totalSent + k * 1048576, min (left - k * 1048576) 1048576⟩) := by
  intro fuel
  induction fuel with
  | zero =>
    intro left totalSent ws hl _
    have h0 : left = 0 := by omega
    subst h0
    exact ⟨[], by simp [senderLoop], by simp, by simp, by simp, by simp⟩
  | succ fuel ih =>
    intro left totalSent ws hl hb
    by_cases h0 : left = 0
    · subst h0
      exact ⟨[], by simp [senderLoop], by simp, by simp, by simp, by simp⟩
    · have hpos : left > 0 := Nat.pos_of_ne_zero h0
      have hcur : min left bufferMaxSize = if left < 1048576 then left else 1048576 := rfl
      have hc1 : 1 ≤ min left bufferMaxSize := by rw [hcur]; split <;> omega
      have hc2 : min left bufferMaxSize ≤ 1048576 := by rw [hcur]; split <;> omega
      have hc3 : min left bufferMaxSize ≤ left := by rw [hcur]; split <;> omega
      obtain ⟨new, hrun, hlen, hrange, hsum, hk⟩ :=
        ih (left - min left bufferMaxSize) (totalSent + min left bufferMaxSize)
          (ws ++ [⟨totalSent, min left bufferMaxSize⟩]) (by omega) (by omega)
      refine ⟨⟨totalSent, min left bufferMaxSize⟩ :: new, ?_, ?_, ?_, ?_, ?_⟩
      · rw [senderLoop]
        have hb2 : totalSent + min left bufferMaxSize ≤ dataBuffer.length := by omega
        simp only [hpos, if_true, hb2, hw, Bool.false_eq_true, if_false, hrun]
        congr 1
        simp only [List.append_assoc, List.singleton_append, SendState.mk.injEq, and_true,
          true_and]
        omega
      · simp only [List.length_cons, hlen]
        rw [hcur]
        split <;> omega
      · intro sl hsl
        simp only [List.mem_cons] at hsl
        rcases hsl with rfl | hsl
        · exact ⟨hc1, hc2⟩
        · exact hrange sl hsl
      · simp only [List.map_cons, List.sum_cons, hsum]
        omega
      · intro k hklt
        cases k with
        | zero => simp [min_eq, bufferMaxSize]
        | succ k =>
          simp only [List.length_cons] at hklt
          rw [List.getElem?_cons_succ, hk k (by omega)]
          have hkpos : 0 < (left - min left bufferMaxSize + 1048575) / 1048576 := by omega
          have hge : ¬ left < 1048576 := by
            intro hlt
            rw [hcur, if_pos hlt] at hkpos
            omega
          have hm : min left bufferMaxSize = 1048576 := by rw [hcur, if_neg hge]
          have e1 : totalSent + 1048576 + k * 1048576 = totalSent + (k + 1) * 1048576 := by omega
          have e2 : left - 1048576 - k * 1048576 = left - (k + 1) * 1048576 := by omega
          rw [hm, e1, e2]

theorem wrapInt64_of_range (x : Int) (h1 : -(2 ^ 63) ≤ x) (h2 : x < 2 ^ 63) :
    wrapInt64 x = x := by
  unfold wrapInt64
  omega

theorem fillBuf_of_length (data : List Nat) (h : data.length = 8) : fillBuf data = data := by
  unfold fillBuf
  rw [h, List.take_of_length_le (by omega)]
  simp

/-- The receiver loop fed with the frames of the counts `cs`, all positive and
adding up to what is still missing: it reads exactly these frames and ends
with `received = size` and success. -/
theorem receiverLoop_frames (size : Nat) (read : Nat → ReadResult) (hsize : size ≤ 99999999) :
    ∀ (cs : List Nat) (fuel : Nat) (received : Nat) (k : Nat), cs.length ≤ fuel →
      (∀ c ∈ cs, 0 < c) → received + cs.sum = size →
      (∀ i, i < cs.length →
        (read (k + i)).err = false ∧ ackFrame (cs.getD i 0) = some (read (k + i)).data) →
      receiverLoop size read fuel (received : Int) k =
        Run.done ⟨(size : Int), k + cs.length, [true]⟩ := by
  intro cs
  induction cs with
  | nil =>
    intro fuel received k _ _ hsum _
    simp only [List.sum_nil, Nat.add_zero] at hsum
    subst hsum
    cases fuel <;> simp [receiverLoop]
  | cons c t ih =>
    intro fuel received k hfuel hposs hsum hread
    have hc : 0 < c := hposs c (List.mem_cons_self _ _)
    simp only [List.sum_cons] at hsum
    obtain ⟨f, rfl⟩ : ∃ f, fuel = f + 1 := ⟨fuel - 1, by simp at hfuel; omega⟩
    obtain ⟨herr, hdata⟩ := hread 0 (by simp)
    simp only [Nat.add_zero, List.getD_cons_zero] at herr hdata
    obtain ⟨hframe, hlen, hdec⟩ := ackFrame_decode c (by omega)
    have hd : (read k).data = List.replicate (8 - (sprintfD c).length) 0 ++ sprintfD c := by
      rw [hframe] at hdata
      exact (Option.some.inj hdata).symm
    have hl8 : (read k).data.length = 8 := by
      rw [hd]
      simp only [List.length_append, List.length_replicate]
      omega
    have hlt : (received : Int) < (size : Int) := by omega
    rw [receiverLoop]
    simp only [hlt, if_true, herr, Bool.false_eq_true, if_false, fillBuf_of_length _ hl8]
    rw [hd, hdec, wrapInt64_of_range _ (by omega) (by omega)]
    have := ih f (received + c) (k + 1) (by simp at hfuel; omega)
      (fun x hx => hposs x (List.mem_cons_of_mem _ hx)) (by omega)
      (fun i hi => by
        have := hread (i + 1) (by simp; omega)
        simpa [Nat.add_assoc, Nat.add_comm 1 i] using this)
    rw [show ((received : Int) + (c : Int)) = ((received + c : Nat) : Int) by push_cast; rfl, this]
    simp only [List.length_cons]
    congr 2
    omega

theorem senderLoop_signals (dataBuffer : List Nat) (write : Nat → WriteResult) :
    ∀ (fuel left totalSent : Nat) (ws : List Slice) (st : SendState),
      senderLoop dataBuffer write fuel left totalSent ws = Run.done st →
      st.signals = [true] ∨ st.signals = [false, true] := by
  intro fuel
  induction fuel with
  | zero =>
    intro left totalSent ws st h
    simp only [senderLoop] at h
    split at h
    · exact absurd h (by simp)
    · cases h; exact Or.inl rfl
  | succ fuel ih =>
    intro left totalSent ws st h
    rw [senderLoop] at h
    by_cases h1 : left > 0
    · by_cases h2 : totalSent + min left bufferMaxSize ≤ dataBuffer.length
      · by_cases h3 : (write ws.length).err = true
        · simp only [h1, if_true, h2, h3] at h
          cases h; exact Or.inr rfl
        · simp only [h1, if_true, h2, h3, if_false] at h
          exact ih _ _ _ _ h
      · simp only [h1, if_true, h2, if_false] at h
        exact absurd h (by simp)
    · simp only [h1, if_false] at h
      cases h; exact Or.inl rfl

theorem receiverLoop_signals (size : Nat) (read : Nat → ReadResult) :
    ∀ (fuel : Nat) (received : Int) (k : Nat) (r : RecvState),
      receiverLoop size read fuel received k = Run.done r →
      r.signals = [true] ∨ r.signals = [false, true] := by
  intro fuel
  induction fuel with
  | zero =>
    intro received k r h
    simp only [receiverLoop] at h
    split at h
    · exact absurd h (by simp)
    · cases h; exact Or.inl rfl
  | succ fuel ih =>
    intro received k r h
    rw [receiverLoop] at h
    split at h
    · split at h
      · cases h; exact Or.inr rfl
      · exact ih _ _ _ h
    · cases h; exact Or.inl rfl

theorem receiverLoop_ne_panic (size : Nat) (read : Nat → ReadResult) :
    ∀ (fuel : Nat) (received : Int) (k : Nat),
      receiverLoop size read fuel received k ≠ Run.panic := by
  intro fuel
  induction fuel with
  | zero =>
    intro received k
    simp only [receiverLoop]
    split <;> simp
  | succ fuel ih =>
    intro received k
    rw [receiverLoop]
    split
    · split
      · simp
      · exact ih _ _
    · simp

/-- What `flood` returns once both goroutines have sent their first value. -/
theorem flood_of_done (dataBuffer : List Nat) (protocol environment : String) (size : Nat)
    (write : Nat → WriteResult) (read : Nat → ReadResult) (fuel : Nat)
    (st : SendState) (r : RecvState) (sendOk recvOk : Bool) (ss rs : List Bool)
    (hs : sender dataBuffer size write = Run.done st) (hr : receiver size read fuel = Run.done r)
    (hss : st.signals = sendOk :: ss) (hrs : r.signals = recvOk :: rs) :
    flood dataBuffer protocol environment size write read fuel =
      Run.done (floodReturn protocol size sendOk recvOk) := by
  simp only [flood, hs, hr, hss, hrs]

/-- While the receiver has not finished, `flood` has not returned. -/
theorem flood_of_pending (dataBuffer : List Nat) (protocol environment : String) (size : Nat)
    (write : Nat → WriteResult) (read : Nat → ReadResult) (fuel : Nat) (st : SendState)
    (hs : sender dataBuffer size write = Run.done st)
    (hr : receiver size read fuel = Run.pending) :
    flood dataBuffer protocol environment size write read fuel = Run.pending := by
  simp only [flood, hs, hr]

/-- The sender loop when call number `ws.length + d` of `write` is the first to
fail: the failing write is the last one, `d` full chunks were sent before it,
and the goroutine sends `false`. -/
theorem senderLoop_fail (dataBuffer : List Nat) (write : Nat → WriteResult) (j : Nat)
    (hj : (write j).err = true) :
    ∀ (d fuel left totalSent : Nat) (ws : List Slice), ws.length + d = j → left ≤ fuel →
      (∀ i, ws.length ≤ i → i < j → (write i).err = false) →
      d * 1048576 < left →
      totalSent + min left ((d + 1) * 1048576) ≤ dataBuffer.length →
      ∃ new, senderLoop dataBuffer write fuel left totalSent ws =
          Run.done ⟨ws ++ new, totalSent + d * 1048576, left - d * 1048576, [false, true]⟩ ∧
        new.length = d + 1 := by
  intro d
  induction d with
  | zero =>
    intro fuel left totalSent ws hlen hfuel _ hleft hbuf
    obtain ⟨f, rfl⟩ : ∃ f, fuel = f + 1 := ⟨fuel - 1, by omega⟩
    have hpos : left > 0 := by omega
    have hcur : min left bufferMaxSize = min left ((0 + 1) * 1048576) := rfl
    refine ⟨[⟨totalSent, min left bufferMaxSize⟩], ?_, rfl⟩
    rw [senderLoop]
    have hw : (write ws.length).err = true := by
      have : ws.length = j := by omega
      rw [this]; exact hj
    have hb2 : totalSent + min left bufferMaxSize ≤ dataBuffer.length := by rw [hcur]; exact hbuf
    simp only [hpos, if_true, hb2, hw, Nat.zero_mul, Nat.add_zero, Nat.sub_zero]
  | succ d ih =>
    intro fuel left totalSent ws hlen hfuel hok hleft hbuf
    obtain ⟨f, rfl⟩ : ∃ f, fuel = f + 1 := ⟨fuel - 1, by omega⟩
    have hpos : left > 0 := by omega
    have hcur : min left bufferMaxSize = 1048576 := by
      have : ¬ left < 1048576 := by omega
      simp only [min_eq, bufferMaxSize, this, if_false]
    have hmin : ∀ a b, min a b = if a < b then a else b := fun _ _ => rfl
    have hw : (write ws.length).err = false := hok _ (Nat.le_refl _) (by omega)
    have hb2 : totalSent + 1048576 ≤ dataBuffer.length := by
      rw [hmin] at hbuf
      split at hbuf <;> omega
    obtain ⟨new, hrun, hnew⟩ := ih f (left - 1048576) (totalSent + 1048576)
      (ws ++ [⟨totalSent, 1048576⟩]) (by simp; omega) (by omega)
      (fun i hi hij => hok i (by simp at hi; omega) hij) (by omega)
      (by
        rw [hmin] at hbuf ⊢
        split at hbuf <;> split <;> omega)
    refine ⟨⟨totalSent, 1048576⟩ :: new, ?_, by simp [hnew]⟩
    rw [senderLoop]
    simp only [hpos, if_true, hcur, hb2, hw, Bool.false_eq_true, if_false, hrun]
    congr 1
    simp only [List.append_assoc, List.singleton_append, SendState.mk.injEq, and_true, true_and]
    omega

theorem atoiDigits_some_digits : ∀ (l : List Nat) (m n : Nat), atoiDigits l m = some n →
    (∀ b ∈ l, b < 256) → ∀ b ∈ l, 48 ≤ b ∧ b ≤ 57 := by
  intro l
  induction l with
  | nil => intro m n _ _ b hb; simp at hb
  | cons ch rest ih =>
    intro m n h hbyte b hb
    simp only [atoiDigits] at h
    have hch := hbyte ch (List.mem_cons_self _ _)
    split at h
    · exact absurd h (by simp)
    · rename_i hd
      simp only [List.mem_cons] at hb
      rcases hb with rfl | hb
      · omega
      · exact ih _ _ h (fun x hx => hbyte x (List.mem_cons_of_mem _ hx)) b hb

theorem bytesTrim_sublist (s : List Nat) (c : Nat) : List.Sublist (bytesTrim s c) s := by
  unfold bytesTrim trimLeftByte trimRightByte
  refine (List.dropWhile_sublist _).trans ?_
  have h := (List.dropWhile_sublist (fun b => b == c) (l := s.reverse)).reverse
  simpa using h

/-- The step budget of the sender is never used up: with `left ≤ fuel` the
loop ends (or panics on the slice). -/
theorem senderLoop_ne_pending (dataBuffer : List Nat) (write : Nat → WriteResult) :
    ∀ (fuel left totalSent : Nat) (ws : List Slice), left ≤ fuel →
      senderLoop dataBuffer write fuel left totalSent ws ≠ Run.pending := by
  intro fuel
  induction fuel with
  | zero =>
    intro left totalSent ws h
    have h0 : ¬ left > 0 := by omega
    simp [senderLoop, h0]
  | succ fuel ih =>
    intro left totalSent ws h
    rw [senderLoop]
    by_cases h1 : left > 0
    · have hc : 1 ≤ min left bufferMaxSize := by
        rw [min_eq, bufferMaxSize]; split <;> omega
      by_cases h2 : totalSent + min left bufferMaxSize ≤ dataBuffer.length
      · by_cases h3 : (write ws.length).err = true
        · simp [h1, h2, h3]
        · simp only [h1, if_true, h2, h3, if_false]
          exact ih _ _ _ (by omega)
      · simp [h1, h2]
    · simp [h1]

/-! ## Claims on the flood engine -/

/-- C3 (chunking invariant): for every size `s` with `0 ≤ s ≤ 64 MiB`, with the
payload buffer built by `main` (64 MiB long) and a channel whose writes all
succeed, the flood sender finishes with success after exactly
`ceil(s / 1 MiB)` writes (the least `n` with `s ≤ n * 1 MiB`), each of length
at least 1 and at most 1048576, and the lengths add up to exactly `s`. -/
theorem flood_chunking (dataBuffer : List Nat) (write : Nat → WriteResult) (s : Nat)
    (hbuf : dataBuffer.length = finalMessageSize) (hs : s ≤ 64 * 1048576)
    (hw : ∀ k, (write k).err = false) :
    ∃ st, sender dataBuffer s write = Run.done st ∧ st.signals = [true] ∧
      st.writes.length = (s + 1048575) / 1048576 ∧
      s ≤ st.writes.length * 1048576 ∧ (∀ n, s ≤ n * 1048576 → st.writes.length ≤ n) ∧
      (∀ sl ∈ st.writes, 1 ≤ sl.len ∧ sl.len ≤ 1048576) ∧
      (st.writes.map Slice.len).sum = s := by
  obtain ⟨new, hrun, hlen, hrange, hsum, -⟩ :=
    senderLoop_all_ok dataBuffer write hw s s 0 [] (Nat.le_refl _)
      (by rw [hbuf]; simp only [finalMessageSize]; omega)
  refine ⟨_, hrun, rfl, ?_, ?_, ?_, ?_, ?_⟩
  · simpa using hlen
  · simp only [List.nil_append, hlen]; omega
  · intro n hn
    simp only [List.nil_append, hlen]; omega
  · simpa using hrange
  · simpa using hsum

/-- Instance of the chunking invariant at `s = 1 MiB + 1` (two writes). -/
theorem flood_chunking_witness :
    (List.replicate finalMessageSize 0).length = finalMessageSize ∧ 1048577 ≤ 64 * 1048576 ∧
    (∀ k : Nat, (WriteResult.mk 1 false).err = false) ∧
    ∃ st, sender (List.replicate finalMessageSize 0) 1048577 (fun _ => ⟨1, false⟩) = Run.done st ∧
      st.signals = [true] ∧
      st.writes.length = (1048577 + 1048575) / 1048576 ∧
      1048577 ≤ st.writes.length * 1048576 ∧
      (∀ n, 1048577 ≤ n * 1048576 → st.writes.length ≤ n) ∧
      (∀ sl ∈ st.writes, 1 ≤ sl.len ∧ sl.len ≤ 1048576) ∧
      (st.writes.map Slice.len).sum = 1048577 :=
  ⟨List.length_replicate _ _, by decide, fun _ => rfl,
    flood_chunking (List.replicate finalMessageSize 0) (fun _ => ⟨1, false⟩) 1048577
      (List.length_replicate _ _) (by decide) (fun _ => rfl)⟩

/-- C4 (loopback success): for every size `s` with `0 ≤ s ≤ 64 MiB`, when all
writes succeed and the reads deliver, without error, the acknowledgment
frames of a sequence of counts `cs` that are positive and add up to `s`
(however the peer split the bytes), the receiver reads exactly
`cs.length` frames and stops with `received = s`, both goroutines report
success, and `flood` returns `nil`, for every step budget that covers the
`cs.length` reads. -/
theorem flood_loopback (dataBuffer : List Nat) (protocol environment : String) (s : Nat)
    (write : Nat → WriteResult) (read : Nat → ReadResult) (cs : List Nat) (fuel : Nat)
    (hbuf : dataBuffer.length = finalMessageSize) (hs : s ≤ 64 * 1048576)
    (hw : ∀ k, (write k).err = false)
    (hpos : ∀ c ∈ cs, 0 < c) (hsum : cs.sum = s)
    (hread : ∀ i, i < cs.length →
      (read i).err = false ∧ ackFrame (cs.getD i 0) = some (read i).data)
    (hfuel : cs.length ≤ fuel) :
    receiver s read fuel = Run.done ⟨(s : Int), cs.length, [true]⟩ ∧
      flood dataBuffer protocol environment s write read fuel = Run.done none := by
  have hrecv : receiver s read fuel = Run.done ⟨(s : Int), cs.length, [true]⟩ := by
    have := receiverLoop_frames s read (by omega) cs fuel 0 0 hfuel hpos (by omega)
      (fun i hi => by simpa using hread i hi)
    simpa [receiver] using this
  obtain ⟨new, hrun, -⟩ :=
    senderLoop_all_ok dataBuffer write hw s s 0 [] (Nat.le_refl _)
      (by rw [hbuf]; simp only [finalMessageSize]; omega)
  refine ⟨hrecv, ?_⟩
  rw [flood_of_done dataBuffer protocol environment s write read fuel _ _ true true [] []
    hrun hrecv rfl rfl]
  rfl

/-- Instance of the loopback property: `s = 3` acknowledged as `2` then `1`. -/
theorem flood_loopback_witness :
    (List.replicate finalMessageSize 0).length = finalMessageSize ∧ 3 ≤ 64 * 1048576 ∧
    (∀ c ∈ [2, 1], 0 < c) ∧ [2, 1].sum = 3 ∧
    receiver 3 (fun i => if i = 0 then ⟨[0, 0, 0, 0, 0, 0, 0, 50], false⟩
        else ⟨[0, 0, 0, 0, 0, 0, 0, 49], false⟩) 2 = Run.done ⟨((3 : Nat) : Int), [2, 1].length, [true]⟩ ∧
      flood (List.replicate finalMessageSize 0) "TCP" "Local" 3 (fun _ => ⟨3, false⟩)
        (fun i => if i = 0 then ⟨[0, 0, 0, 0, 0, 0, 0, 50], false⟩
          else ⟨[0, 0, 0, 0, 0, 0, 0, 49], false⟩) 2 = Run.done none :=
  ⟨List.length_replicate _ _, by decide, by decide, by decide,
    flood_loopback (List.replicate finalMessageSize 0) "TCP" "Local" 3 (fun _ => ⟨3, false⟩)
      (fun i => if i = 0 then ⟨[0, 0, 0, 0, 0, 0, 0, 50], false⟩
        else ⟨[0, 0, 0, 0, 0, 0, 0, 49], false⟩) [2, 1] 2
      (List.length_replicate _ _) (by decide) (fun _ => rfl) (by decide) (by decide)
      (by decide) (by decide)⟩

/-- C6, as the code has it: for every 8-byte buffer whose content, once
leading and trailing zero bytes are stripped, is not an optional sign `'+'` or
`'-'` followed by one or more ASCII decimal digits, the decoding step of the
flood receiver yields 0 and so leaves `received` unchanged. -/
theorem malformed_frame_zero (buf : List Nat) (hlen : buf.length = 8)
    (hbyte : ∀ b ∈ buf, b < 256) (hbad : ¬ signedDecimal (bytesTrim buf 0)) :
    decodeAck buf = 0 ∧
      ∀ received : Int, -(2 ^ 63) ≤ received → received < 2 ^ 63 →
        wrapInt64 (received + decodeAck buf) = received := by
  have hzero : decodeAck buf = 0 := by
    have hsub := bytesTrim_sublist buf 0
    have hl : (bytesTrim buf 0).length ≤ 8 := hlen ▸ hsub.length_le
    have hb : ∀ b ∈ bytesTrim buf 0, b < 256 := fun b hb => hbyte b (hsub.subset hb)
    unfold decodeAck
    generalize bytesTrim buf 0 = t at hl hb hbad
    unfold atoi
    by_cases hnil : t = []
    · subst hnil
      simp [parseInt]
    · have hc : 0 < t.length ∧ t.length < 19 := ⟨List.length_pos.mpr hnil, by omega⟩
      by_cases hsg : t.head? = some 45 ∨ t.head? = some 43
      · simp only [hc, and_self, if_true, hsg, true_and]
        by_cases hlt : t.tail.length < 1
        · simp only [hlt, if_true]
        · simp only [hlt, if_false]
          cases hn : atoiDigits t.tail 0 with
          | none => rfl
          | some n =>
            exfalso
            apply hbad
            unfold signedDecimal
            simp only [hsg, if_true]
            refine ⟨?_, ?_⟩
            · intro h0
              rw [h0] at hlt
              simp at hlt
            · exact atoiDigits_some_digits _ 0 n hn (fun b hb2 => hb b (List.mem_of_mem_tail hb2))
      · simp only [hc, and_self, if_true, hsg, false_and, if_false]
        cases hn : atoiDigits t 0 with
        | none => rfl
        | some n =>
          exfalso
          apply hbad
          unfold signedDecimal
          simp only [hsg, if_false]
          exact ⟨hnil, atoiDigits_some_digits _ 0 n hn hb⟩
  refine ⟨hzero, ?_⟩
  intro received h1 h2
  rw [hzero, Int.add_zero]
  exact wrapInt64_of_range received h1 h2

/-- Instance of the amended C6: the frame `"12x3"` behind four zero bytes. -/
theorem malformed_frame_zero_witness :
    [0, 0, 0, 0, 49, 50, 120, 51].length = 8 ∧ (∀ b ∈ [0, 0, 0, 0, 49, 50, 120, 51], b < 256) ∧
    ¬ signedDecimal (bytesTrim [0, 0, 0, 0, 49, 50, 120, 51] 0) ∧
    decodeAck [0, 0, 0, 0, 49, 50, 120, 51] = 0 ∧
      ∀ received : Int, -(2 ^ 63) ≤ received → received < 2 ^ 63 →
        wrapInt64 (received + decodeAck [0, 0, 0, 0, 49, 50, 120, 51]) = received :=
  ⟨by decide, by decide, by decide,
    malformed_frame_zero [0, 0, 0, 0, 49, 50, 120, 51] (by decide) (by decide) (by decide)⟩

/-- C6 as stated fails: the 8-byte buffers `"+5"` behind six zero bytes and
`"5"` followed by seven zero bytes are not well-formed frames (a sign; digits
not at the end of the field), yet the decoding step adds 5 for each, and
`"-5"` behind six zero bytes makes it add -5. -/
theorem malformed_frame_counted :
    ([0, 0, 0, 0, 0, 0, 43, 53].length = 8 ∧ ¬ wellFormedAck [0, 0, 0, 0, 0, 0, 43, 53] ∧
      decodeAck [0, 0, 0, 0, 0, 0, 43, 53] = 5) ∧
    ([53, 0, 0, 0, 0, 0, 0, 0].length = 8 ∧ ¬ wellFormedAck [53, 0, 0, 0, 0, 0, 0, 0] ∧
      decodeAck [53, 0, 0, 0, 0, 0, 0, 0] = 5) ∧
    ([0, 0, 0, 0, 0, 0, 45, 53].length = 8 ∧ ¬ wellFormedAck [0, 0, 0, 0, 0, 0, 45, 53] ∧
      decodeAck [0, 0, 0, 0, 0, 0, 45, 53] = -5) := by
  decide

/-! ## Further lemmas on the flood engine -/

/-- The receiver loop fed with frames that all decode to 0, without a read
error: the loop condition holds for ever, whatever the step budget. -/
theorem receiverLoop_zero_frames (size : Nat) (read : Nat → ReadResult)
    (hz : ∀ k, (read k).err = false ∧ decodeAck (fillBuf (read k).data) = 0) :
    ∀ (fuel : Nat) (received : Int) (k : Nat), received < (size : Int) →
      -(2 ^ 63) ≤ received → received < 2 ^ 63 →
      receiverLoop size read fuel received k = Run.pending := by
  intro fuel
  induction fuel with
  | zero =>
    intro received k hlt _ _
    simp [receiverLoop, hlt]
  | succ fuel ih =>
    intro received k hlt h1 h2
    rw [receiverLoop]
    simp only [hlt, if_true, (hz k).1, Bool.false_eq_true, if_false, (hz k).2, Int.add_zero,
      wrapInt64_of_range received h1 h2]
    exact ih received (k + 1) hlt h1 h2

/-- A run of `flood` whose receiver has not finished has not returned. -/
theorem flood_ne_done_of_pending (dataBuffer : List Nat) (protocol environment : String)
    (size : Nat) (write : Nat → WriteResult) (read : Nat → ReadResult) (fuel : Nat)
    (hr : receiver size read fuel = Run.pending) (r : Option String) :
    flood dataBuffer protocol environment size write read fuel ≠ Run.done r := by
  unfold flood
  cases sender dataBuffer size write with
  | done st => simp [hr]
  | panic => simp
  | pending => simp

/-- The sender loop when it ends with success: every write succeeded, the
chunks are consecutive full chunks followed by the remainder, and `left` is
used up, whatever counts `n` the writes returned. -/
theorem senderLoop_success (dataBuffer : List Nat) (write : Nat → WriteResult) :
    ∀ (fuel left totalSent : Nat) (ws : List Slice) (st : SendState),
      senderLoop dataBuffer write fuel left totalSent ws = Run.done st →
      st.signals = [true] →
      ∃ new, st.writes = ws ++ new ∧ st.totalSent = totalSent + left ∧ st.left = 0 ∧
        new.length = (left + 1048575) / 1048576 ∧
        (new.map Slice.len).sum = left ∧
        (∀ k, k < new.length → (write (ws.length + k)).err = false ∧
          new[k]? = some ⟨totalSent + k * 1048576, min (left - k * 1048576) 1048576⟩) := by
  intro fuel
  induction fuel with
  | zero =>
    intro left totalSent ws st h _
    by_cases h0 : left > 0
    · simp [senderLoop, h0] at h
    · simp only [senderLoop, h0, if_false, Run.done.injEq] at h
      subst h
      have : left = 0 := by omega
      subst this
      exact ⟨[], by simp, rfl, rfl, by simp, by simp, by simp⟩
  | succ fuel ih =>
    intro left totalSent ws st h hsig
    rw [senderLoop] at h
    by_cases h1 : left > 0
    · by_cases h2 : totalSent + min left bufferMaxSize ≤ dataBuffer.length
      · by_cases h3 : (write ws.length).err = true
        · simp only [h1, if_true, h2, h3, Run.done.injEq] at h
          subst h
          simp at hsig
        · simp only [h1, if_true, h2, h3, if_false] at h
          have hcur : min left bufferMaxSize = if left < 1048576 then left else 1048576 := rfl
          have hc3 : min left bufferMaxSize ≤ left := by rw [hcur]; split <;> omega
          obtain ⟨new, hw, ht, hl, hlen, hsum, hk⟩ := ih _ _ _ _ h hsig
          refine ⟨⟨totalSent, min left bufferMaxSize⟩ :: new, by simpa using hw, by omega, hl,
            ?_, ?_, ?_⟩
          · simp only [List.length_cons, hlen]
            rw [hcur]
            split <;> omega
          · simp only [List.map_cons, List.sum_cons, hsum]
            omega
          · intro k hklt
            cases k with
            | zero =>
              refine ⟨by simpa using h3, ?_⟩
              simp [min_eq, bufferMaxSize]
            | succ k =>
              simp only [List.length_cons] at hklt
              have hkk := hk k (by omega)
              simp only [List.length_append, List.length_singleton] at hkk
              have e0 : ws.length + (k + 1) = ws.length + 1 + k := by omega
              rw [e0]
              refine ⟨hkk.1, ?_⟩
              rw [List.getElem?_cons_succ, hkk.2]
              have hkpos : 0 < (left - min left bufferMaxSize + 1048575) / 1048576 := by omega
              have hge : ¬ left < 1048576 := by
                intro hlt
                rw [hcur, if_pos hlt] at hkpos
                omega
              have hm : min left bufferMaxSize = 1048576 := by rw [hcur, if_neg hge]
              have e1 : totalSent + 1048576 + k * 1048576 = totalSent + (k + 1) * 1048576 := by
                omega
              have e2 : left - 1048576 - k * 1048576 = left - (k + 1) * 1048576 := by omega
              rw [hm, e1, e2]
      · simp [h1, h2] at h
    · simp only [h1, if_false, Run.done.injEq] at h
      subst h
      have : left = 0 := by omega
      subst this
      exact ⟨[], by simp, rfl, rfl, by simp, by simp, by simp⟩

theorem map_range_eq_map {α : Type} (l : List α) (f : Nat → Nat) (g : α → Nat)
    (h : ∀ k a, l[k]? = some a → f k = g a) :
    (List.range l.length).map f = l.map g := by
  apply List.ext_getElem?
  intro i
  by_cases hi : i < l.length
  · have ha : l[i]? = some (l.get ⟨i, hi⟩) := by simp [List.getElem?_eq_getElem hi]
    simp [List.getElem?_map, List.getElem?_range hi, ha, h i _ ha]
  · have h1 : l[i]? = none := by simp [List.getElem?_eq_none_iff]; omega
    have h2 : (List.range l.length)[i]? = none := by
      simp [List.getElem?_eq_none_iff]; omega
    simp [List.getElem?_map, h1, h2]

/-- The sender loop on a channel whose writes all succeed: the chunks it
writes, put end to end, are the `left` bytes of the buffer from `totalSent`
on. -/
theorem senderLoop_all_ok_bytes (dataBuffer : List Nat) (write : Nat → WriteResult)
    (hw : ∀ k, (write k).err = false) :
    ∀ (fuel left totalSent : Nat) (ws : List Slice), left ≤ fuel →
      totalSent + left ≤ dataBuffer.length →
      ∃ new, senderLoop dataBuffer write fuel left totalSent ws =
          Run.done ⟨ws ++ new, totalSent + left, 0, [true]⟩ ∧
        new.flatMap (sliceBytes dataBuffer) = (dataBuffer.drop totalSent).take left := by
  intro fuel
  induction fuel with
  | zero =>
    intro left totalSent ws hl _
    have h0 : left = 0 := by omega
    subst h0
    exact ⟨[], by simp [senderLoop], by simp⟩
  | succ fuel ih =>
    intro left totalSent ws hl hb
    by_cases h0 : left = 0
    · subst h0
      exact ⟨[], by simp [senderLoop], by simp⟩
    · have hpos : left > 0 := Nat.pos_of_ne_zero h0
      have hcur : min left bufferMaxSize = if left < 1048576 then left else 1048576 := rfl
      have hc1 : 1 ≤ min left bufferMaxSize := by rw [hcur]; split <;> omega
      have hc3 : min left bufferMaxSize ≤ left := by rw [hcur]; split <;> omega
      obtain ⟨new, hrun, hbytes⟩ :=
        ih (left - min left bufferMaxSize) (totalSent + min left bufferMaxSize)
          (ws ++ [⟨totalSent, min left bufferMaxSize⟩]) (by omega) (by omega)
      refine ⟨⟨totalSent, min left bufferMaxSize⟩ :: new, ?_, ?_⟩
      · rw [senderLoop]
        have hb2 : totalSent + min left bufferMaxSize ≤ dataBuffer.length := by omega
        simp only [hpos, if_true, hb2, hw, Bool.false_eq_true, if_false, hrun]
        congr 1
        simp only [List.append_assoc, List.singleton_append, SendState.mk.injEq, and_true,
          true_and]
        omega
      · rw [List.flatMap_cons, hbytes]
        simp only [sliceBytes]
        have e : left = min left bufferMaxSize + (left - min left bufferMaxSize) := by omega
        conv_rhs => rw [e, List.take_add, List.drop_drop]

/-! ## Further claims on the flood engine -/

/-- C11, as the code has it: repeated malformed frames never end the receiver.
For every size `s > 0`, when no read returns an error and every frame read
contributes 0 bytes, the flood receiver reports neither failure nor success:
for every number `N` of reads allowed it is still in its loop after `N`
reads, and `flood` does not return. -/
theorem malformed_frames_never_end (dataBuffer : List Nat) (protocol environment : String)
    (s : Nat) (write : Nat → WriteResult) (read : Nat → ReadResult) (hs : 0 < s)
    (hz : ∀ k, (read k).err = false ∧ decodeAck (fillBuf (read k).data) = 0) :
    (∀ N, receiver s read N = Run.pending) ∧
      (∀ N r, flood dataBuffer protocol environment s write read N ≠ Run.done r) := by
  have hp : ∀ N, receiver s read N = Run.pending := fun N =>
    receiverLoop_zero_frames s read hz N 0 0 (by omega) (by omega) (by omega)
  exact ⟨hp, fun N r =>
    flood_ne_done_of_pending dataBuffer protocol environment s write read N (hp N) r⟩

/-- Instance of the amended C11: size 1 and every read delivering the frame
`"12x3"` behind four zero bytes. -/
theorem malformed_frames_never_end_witness :
    0 < 1 ∧
    (∀ k : Nat, (ReadResult.mk [0, 0, 0, 0, 49, 50, 120, 51] false).err = false ∧
      decodeAck (fillBuf (ReadResult.mk [0, 0, 0, 0, 49, 50, 120, 51] false).data) = 0) ∧
    (∀ N, receiver 1 (fun _ => ⟨[0, 0, 0, 0, 49, 50, 120, 51], false⟩) N = Run.pending) ∧
    (∀ N r, flood (List.replicate 8 7) "TCP" "Local" 1 (fun _ => ⟨1, false⟩)
      (fun _ => ⟨[0, 0, 0, 0, 49, 50, 120, 51], false⟩) N ≠ Run.done r) :=
  ⟨by decide, fun _ => ⟨rfl, (by decide : decodeAck (fillBuf [0, 0, 0, 0, 49, 50, 120, 51]) = 0)⟩,
    malformed_frames_never_end (List.replicate 8 7) "TCP" "Local" 1 (fun _ => ⟨1, false⟩)
      (fun _ => ⟨[0, 0, 0, 0, 49, 50, 120, 51], false⟩) (by decide)
      (fun _ => ⟨rfl, (by decide : decodeAck (fillBuf [0, 0, 0, 0, 49, 50, 120, 51]) = 0)⟩)⟩

/-- C11 as stated fails: with size 1 and every read delivering, without error,
the malformed frame `"12x3"` behind four zero bytes (it contributes 0), the
receiver has not reported anything after any number of reads, so no bound `N`
on its reads exists. -/
theorem malformed_frames_spin :
    ¬ wellFormedAck [0, 0, 0, 0, 49, 50, 120, 51] ∧
    decodeAck (fillBuf [0, 0, 0, 0, 49, 50, 120, 51]) = 0 ∧
    ∀ N, receiver 1 (fun _ => ⟨[0, 0, 0, 0, 49, 50, 120, 51], false⟩) N = Run.pending :=
  ⟨by decide, by decide, fun N =>
    receiverLoop_zero_frames 1 (fun _ => ⟨[0, 0, 0, 0, 49, 50, 120, 51], false⟩)
      (fun _ => ⟨rfl, (by decide : decodeAck (fillBuf [0, 0, 0, 0, 49, 50, 120, 51]) = 0)⟩) N 0 0 (by decide) (by decide) (by decide)⟩

/-- C12, as the code has it: the sender accounts for the length of the chunk
it handed to `write`, not for the accepted count.  Whenever the sender reports
success, whatever counts `n` the writes returned: every write succeeded,
write number `k` was handed the chunk that starts at offset `k * 1 MiB` and
has `min(size - k * 1 MiB, 1 MiB)` bytes (so each successful write lowers
`left` and raises `totalSent` by the chunk length), `totalSent = size`,
`left = 0`, and the chunk lengths add up to `size`; the accepted counts add up
to `size` when every write accepted its whole chunk. -/
theorem sender_accounts_chunk_length (dataBuffer : List Nat) (size : Nat)
    (write : Nat → WriteResult) (st : SendState)
    (h : sender dataBuffer size write = Run.done st) (hok : st.signals = [true]) :
    st.totalSent = size ∧ st.left = 0 ∧ (st.writes.map Slice.len).sum = size ∧
      (∀ k, k < st.writes.length → (write k).err = false ∧
        st.writes[k]? = some ⟨k * 1048576, min (size - k * 1048576) 1048576⟩) ∧
      ((∀ k sl, st.writes[k]? = some sl → (write k).n = sl.len) →
        (acceptedCounts write st.writes.length).sum = size) := by
  obtain ⟨new, hw, ht, hl, -, hsum, hk⟩ := senderLoop_success dataBuffer write size size 0 [] st h hok
  simp only [List.nil_append] at hw
  subst hw
  refine ⟨by omega, hl, hsum, ?_, ?_⟩
  · intro k hklt
    simpa using hk k hklt
  · intro hn
    unfold acceptedCounts
    rw [map_range_eq_map st.writes (fun k => (write k).n) Slice.len hn, hsum]

/-- Instance of the amended C12: size 3 on an 8-byte buffer, the write
accepting the whole chunk. -/
theorem sender_accounts_chunk_length_witness :
    sender (List.replicate 8 7) 3 (fun _ => ⟨3, false⟩) =
      Run.done ⟨[⟨0, 3⟩], 3, 0, [true]⟩ ∧
    (SendState.mk [⟨0, 3⟩] 3 0 [true]).signals = [true] ∧
    (SendState.mk [⟨0, 3⟩] 3 0 [true]).totalSent = 3 ∧
    (SendState.mk [⟨0, 3⟩] 3 0 [true]).left = 0 ∧
    ((SendState.mk [⟨0, 3⟩] 3 0 [true]).writes.map Slice.len).sum = 3 ∧
    (∀ k, k < (SendState.mk [⟨0, 3⟩] 3 0 [true]).writes.length →
      (WriteResult.mk 3 false).err = false ∧
      (SendState.mk [⟨0, 3⟩] 3 0 [true]).writes[k]? =
        some ⟨k * 1048576, min (3 - k * 1048576) 1048576⟩) ∧
    ((∀ (k : Nat) (sl : Slice), (SendState.mk [⟨0, 3⟩] 3 0 [true]).writes[k]? = some sl →
        (WriteResult.mk 3 false).n = sl.len) →
      (acceptedCounts (fun _ => ⟨3, false⟩)
        (SendState.mk [⟨0, 3⟩] 3 0 [true]).writes.length).sum = 3) :=
  ⟨by decide, rfl,
    sender_accounts_chunk_length (List.replicate 8 7) 3 (fun _ => ⟨3, false⟩) _
      (by decide) rfl⟩

/-- C12 as stated fails: with size 3 and a write that accepts 1 byte of the
3-byte chunk without error, the sender lowers `left` from 3 to 0 and raises
`totalSent` to 3 at once, issues no further write for the 2 bytes not
accepted, and reports success although the accepted counts add up to 1. -/
theorem short_write_not_resent :
    (WriteResult.mk 1 false).n < 3 ∧
    sender (List.replicate 8 7) 3 (fun _ => ⟨1, false⟩) =
      Run.done ⟨[⟨0, 3⟩], 3, 0, [true]⟩ ∧
    (acceptedCounts (fun _ => ⟨1, false⟩) 1).sum = 1 := by
  decide

/-- C13 (payload slicing is in bounds and contiguous): for every size `s` with
`0 ≤ s ≤ 64 MiB`, the payload buffer of `main` (64 MiB long) and a channel
whose writes all succeed, the sender finishes without an out-of-range slice
after `ceil(s / 1 MiB)` writes; write number `k` (from 0) is handed the slice
with offset `k * 1048576` and length `min(s - k * 1048576, 1048576)`, which
lies within the buffer and carries exactly the bytes
`payload[k*1048576 .. k*1048576 + min(s - k*1048576, 1048576))`; and the
chunks written, put end to end, are the first `s` bytes of the buffer. -/
theorem payload_slices (dataBuffer : List Nat) (write : Nat → WriteResult) (s : Nat)
    (hbuf : dataBuffer.length = finalMessageSize) (hs : s ≤ 64 * 1048576)
    (hw : ∀ k, (write k).err = false) :
    ∃ st, sender dataBuffer s write = Run.done st ∧
      st.writes.length = (s + 1048575) / 1048576 ∧
      (∀ k, k < st.writes.length → ∃ sl, st.writes[k]? = some sl ∧
        sl.off = k * 1048576 ∧ sl.len = min (s - k * 1048576) 1048576 ∧
        sl.off + sl.len ≤ dataBuffer.length ∧
        sliceBytes dataBuffer sl =
          (dataBuffer.drop (k * 1048576)).take (min (s - k * 1048576) 1048576)) ∧
      st.writes.flatMap (sliceBytes dataBuffer) = dataBuffer.take s := by
  have hin : 0 + s ≤ dataBuffer.length := by
    rw [hbuf]; simp only [finalMessageSize]; omega
  obtain ⟨new, hrun, hlen, -, -, hk⟩ :=
    senderLoop_all_ok dataBuffer write hw s s 0 [] (Nat.le_refl _) hin
  obtain ⟨new2, hrun2, hbytes⟩ :=
    senderLoop_all_ok_bytes dataBuffer write hw s s 0 [] (Nat.le_refl _) hin
  have hnew : new2 = new := by
    rw [hrun] at hrun2
    simp only [List.nil_append, Run.done.injEq, SendState.mk.injEq, and_true] at hrun2
    exact hrun2.symm
  subst hnew
  refine ⟨_, hrun, by simpa using hlen, ?_, ?_⟩
  · intro k hklt
    simp only [List.nil_append] at hklt ⊢
    have hkk := hk k hklt
    simp only [Nat.zero_add] at hkk
    refine ⟨_, hkk, rfl, rfl, ?_, rfl⟩
    have hks : k * 1048576 < s := by omega
    have hm : min (s - k * 1048576) 1048576 ≤ s - k * 1048576 := by
      rw [min_eq]; split <;> omega
    show k * 1048576 + min (s - k * 1048576) 1048576 ≤ dataBuffer.length
    omega
  · simpa using hbytes

/-- Instance of C13 at `s = 1 MiB + 1` (two chunks). -/
theorem payload_slices_witness :
    (List.replicate finalMessageSize 0).length = finalMessageSize ∧ 1048577 ≤ 64 * 1048576 ∧
    (∀ k : Nat, (WriteResult.mk 1 false).err = false) ∧
    ∃ st, sender (List.replicate finalMessageSize 0) 1048577 (fun _ => ⟨1, false⟩) = Run.done st ∧
      st.writes.length = (1048577 + 1048575) / 1048576 ∧
      (∀ k, k < st.writes.length → ∃ sl, st.writes[k]? = some sl ∧
        sl.off = k * 1048576 ∧ sl.len = min (1048577 - k * 1048576) 1048576 ∧
        sl.off + sl.len ≤ (List.replicate finalMessageSize 0).length ∧
        sliceBytes (List.replicate finalMessageSize 0) sl =
          ((List.replicate finalMessageSize 0).drop (k * 1048576)).take
            (min (1048577 - k * 1048576) 1048576)) ∧
      st.writes.flatMap (sliceBytes (List.replicate finalMessageSize 0)) =
        (List.replicate finalMessageSize 0).take 1048577 :=
  ⟨List.length_replicate _ _, by decide, fun _ => rfl,
    payload_slices (List.replicate finalMessageSize 0) (fun _ => ⟨1, false⟩) 1048577
      (List.length_replicate _ _) (by decide) (fun _ => rfl)⟩

/-! ## The result of `flood` -/

/-- The text `fmt.Sprintf("%d", n)` digit by digit. -/
theorem decimalString_spec (n : Nat) :
    ∃ cs, IsDecimalText cs n ∧ decimalString n = String.mk cs := by
  have hs := sprintfD_spec n
  refine ⟨(sprintfD n).map Char.ofNat, ⟨?_, ?_, ?_, ?_⟩, rfl⟩
  · simpa using List.length_pos.mpr hs.ne
  · simpa using hs.lt
  · simpa using hs.tight
  · intro i hi
    simp only [List.length_map] at hi
    rw [← List.map_reverse, List.getElem?_map, hs.pos i hi]
    rfl

/-- The error `flood` returns, with its text spelled out. -/
theorem floodReturn_error (protocol : String) (size : Nat) (sendOk recvOk : Bool)
    (h : ¬ (sendOk = true ∧ recvOk = true)) :
    ∃ cs, IsDecimalText cs size ∧
      floodReturn protocol size sendOk recvOk =
        some (protocol ++ ": " ++ String.mk cs ++ " did not finish ") := by
  obtain ⟨cs, hcs, hd⟩ := decimalString_spec size
  refine ⟨cs, hcs, ?_⟩
  have hb : (sendOk && recvOk) = false := by
    cases sendOk <;> cases recvOk <;> simp at h ⊢
  simp [floodReturn, hb, hd]

/-- C5, as the code has it (result of `flood`): once the sender and the
receiver goroutine have each sent their completion signal (`sendOk` and
`recvOk` are the first values the caller takes from the two channels), `flood`
returns; it returns no error if and only if both signals are `true`, and in
every other case it returns the error whose message is the protocol,
`": "`, the decimal digits of the requested size and `" did not finish "`.
While the receiver has not sent its signal, `flood` does not return. -/
theorem flood_result (dataBuffer : List Nat) (protocol environment : String) (size : Nat)
    (write : Nat → WriteResult) (read : Nat → ReadResult) (fuel : Nat)
    (st : SendState) (r : RecvState)
    (hs : sender dataBuffer size write = Run.done st)
    (hr : receiver size read fuel = Run.done r) :
    (∃ sendOk recvOk, st.signals.head? = some sendOk ∧ r.signals.head? = some recvOk ∧
      (flood dataBuffer protocol environment size write read fuel = Run.done none ↔
        (sendOk = true ∧ recvOk = true)) ∧
      (¬ (sendOk = true ∧ recvOk = true) →
        ∃ cs, IsDecimalText cs size ∧
          flood dataBuffer protocol environment size write read fuel =
            Run.done (some (protocol ++ ": " ++ String.mk cs ++ " did not finish ")))) ∧
    (∀ read2 fuel2, receiver size read2 fuel2 = Run.pending →
      ∀ res, flood dataBuffer protocol environment size write read2 fuel2 ≠ Run.done res) := by
  have h1 := senderLoop_signals dataBuffer write size size 0 [] st hs
  have h2 := receiverLoop_signals size read fuel 0 0 r hr
  have hform : ∀ (a b : Bool) (as bs : List Bool), st.signals = a :: as → r.signals = b :: bs →
      ∃ sendOk recvOk, st.signals.head? = some sendOk ∧ r.signals.head? = some recvOk ∧
      (flood dataBuffer protocol environment size write read fuel = Run.done none ↔
        (sendOk = true ∧ recvOk = true)) ∧
      (¬ (sendOk = true ∧ recvOk = true) →
        ∃ cs, IsDecimalText cs size ∧
          flood dataBuffer protocol environment size write read fuel =
            Run.done (some (protocol ++ ": " ++ String.mk cs ++ " did not finish "))) := by
    intro a b as bs ha hb
    have hfl := flood_of_done dataBuffer protocol environment size write read fuel st r a b
      as bs hs hr ha hb
    refine ⟨a, b, by simp [ha], by simp [hb], ?_, ?_⟩
    · rw [hfl]
      cases a <;> cases b <;> simp [floodReturn]
    · intro hn
      obtain ⟨cs, hcs, he⟩ := floodReturn_error protocol size a b hn
      exact ⟨cs, hcs, by rw [hfl, he]⟩
  refine ⟨?_, fun read2 fuel2 hp res =>
    flood_ne_done_of_pending dataBuffer protocol environment size write read2 fuel2 hp res⟩
  rcases h1 with h1 | h1 <;> rcases h2 with h2 | h2
  · exact hform _ _ _ _ h1 h2
  · exact hform _ _ _ _ h1 h2
  · exact hform _ _ _ _ h1 h2
  · exact hform _ _ _ _ h1 h2

/-- Instance of the amended C5: size 3 on a 10-byte buffer, the only write
failing, the read failing as well; the error returned is
`"QUIC: 3 did not finish "`. -/
theorem flood_result_witness :
    sender (List.replicate 10 7) 3 (fun _ => ⟨0, true⟩) =
        Run.done ⟨[⟨0, 3⟩], 0, 3, [false, true]⟩ ∧
    receiver 3 (fun _ => ⟨[], true⟩) 1 = Run.done ⟨0, 1, [false, true]⟩ ∧
    flood (List.replicate 10 7) "QUIC" "Local" 3 (fun _ => ⟨0, true⟩) (fun _ => ⟨[], true⟩) 1 =
      Run.done (some "QUIC: 3 did not finish ") ∧
    flood (List.replicate 10 7) "QUIC" "Local" 3 (fun _ => ⟨3, false⟩)
      (fun _ => ⟨[0, 0, 0, 0, 0, 0, 0, 51], false⟩) 1 = Run.done none ∧
    ((∃ sendOk recvOk,
      (SendState.mk [⟨0, 3⟩] 0 3 [false, true]).signals.head? = some sendOk ∧
      (RecvState.mk 0 1 [false, true]).signals.head? = some recvOk ∧
      (flood (List.replicate 10 7) "QUIC" "Local" 3 (fun _ => ⟨0, true⟩) (fun _ => ⟨[], true⟩) 1 =
          Run.done none ↔ (sendOk = true ∧ recvOk = true)) ∧
      (¬ (sendOk = true ∧ recvOk = true) →
        ∃ cs, IsDecimalText cs 3 ∧
          flood (List.replicate 10 7) "QUIC" "Local" 3 (fun _ => ⟨0, true⟩)
              (fun _ => ⟨[], true⟩) 1 =
            Run.done (some ("QUIC" ++ ": " ++ String.mk cs ++ " did not finish ")))) ∧
    (∀ read2 fuel2, receiver 3 read2 fuel2 = Run.pending →
      ∀ res, flood (List.replicate 10 7) "QUIC" "Local" 3 (fun _ => ⟨0, true⟩) read2 fuel2 ≠
        Run.done res)) :=
  ⟨by decide, by decide, by decide, by decide,
    flood_result (List.replicate 10 7) "QUIC" "Local" 3 (fun _ => ⟨0, true⟩)
      (fun _ => ⟨[], true⟩) 1 _ _ (by decide) (by decide)⟩

/-- C5 as stated fails: with size 1, the write succeeding and every read
delivering, without error, the frame of the count 0, the sender reports
success and the receiver never reports; not both signals report success, yet
`flood` returns no error: it does not return at all. -/
theorem flood_blocks_without_error :
    sender (List.replicate 8 7) 1 (fun _ => ⟨1, false⟩) = Run.done ⟨[⟨0, 1⟩], 1, 0, [true]⟩ ∧
    ackFrame 0 = some [0, 0, 0, 0, 0, 0, 0, 48] ∧
    (∀ N, receiver 1 (fun _ => ⟨[0, 0, 0, 0, 0, 0, 0, 48], false⟩) N = Run.pending) ∧
    (∀ N res, flood (List.replicate 8 7) "TCP" "Local" 1 (fun _ => ⟨1, false⟩)
      (fun _ => ⟨[0, 0, 0, 0, 0, 0, 0, 48], false⟩) N ≠ Run.done res) := by
  have hp : ∀ N, receiver 1 (fun _ => ⟨[0, 0, 0, 0, 0, 0, 0, 48], false⟩) N = Run.pending :=
    fun N => receiverLoop_zero_frames 1 (fun _ => ⟨[0, 0, 0, 0, 0, 0, 0, 48], false⟩)
      (fun _ => ⟨rfl, (by decide : decodeAck (fillBuf [0, 0, 0, 0, 0, 0, 0, 48]) = 0)⟩)
      N 0 0 (by decide) (by decide) (by decide)
  exact ⟨by decide, by decide, hp, fun N res =>
    flood_ne_done_of_pending _ _ _ _ _ _ N (hp N) res⟩

/-- C7, as the code has it (write failure is fail-stop): for every size
`s > 0`, if call number `j` of `write` is the first to return an error and it
is reached with `k = j * 1 MiB < s` bytes sent (its slice lies in the payload
buffer), then the sender issues exactly `j + 1` writes (none after the failing
one), has sent `k` bytes, and the completion signal the caller takes is
`false`; `flood` never reports success for that transfer, whatever the reads
do: once the receiver has sent its signal it returns the error whose message
is the protocol, `": "`, the decimal digits of `s` and `" did not finish "`,
and while the receiver has not sent its signal it does not return. -/
theorem flood_write_failure (dataBuffer : List Nat) (protocol environment : String) (s j : Nat)
    (write : Nat → WriteResult)
    (hs : 0 < s) (hk : j * 1048576 < s)
    (hbuf : min s ((j + 1) * 1048576) ≤ dataBuffer.length)
    (hok : ∀ i, i < j → (write i).err = false) (hj : (write j).err = true) :
    ∃ st, sender dataBuffer s write = Run.done st ∧
      st.writes.length = j + 1 ∧ st.totalSent = j * 1048576 ∧
      st.signals.head? = some false ∧
      (∀ read fuel, flood dataBuffer protocol environment s write read fuel ≠ Run.done none) ∧
      (∀ read fuel r, receiver s read fuel = Run.done r →
        ∃ cs, IsDecimalText cs s ∧
          flood dataBuffer protocol environment s write read fuel =
            Run.done (some (protocol ++ ": " ++ String.mk cs ++ " did not finish "))) ∧
      (∀ read fuel, receiver s read fuel = Run.pending →
        flood dataBuffer protocol environment s write read fuel = Run.pending) := by
  obtain ⟨new, hrun, hnew⟩ := senderLoop_fail dataBuffer write j hj j s s 0 [] (by simp)
    (Nat.le_refl _) (fun i _ hi => hok i hi) hk (by simpa using hbuf)
  have hdone : ∀ read fuel r, receiver s read fuel = Run.done r →
      ∃ cs, IsDecimalText cs s ∧
        flood dataBuffer protocol environment s write read fuel =
          Run.done (some (protocol ++ ": " ++ String.mk cs ++ " did not finish ")) := by
    intro read fuel r hr
    rcases receiverLoop_signals s read fuel 0 0 r hr with h2 | h2
    · obtain ⟨cs, hcs, he⟩ := floodReturn_error protocol s false true (by simp)
      exact ⟨cs, hcs, by
        rw [flood_of_done dataBuffer protocol environment s write read fuel _ r false _ _ _
          hrun hr rfl h2, he]⟩
    · obtain ⟨cs, hcs, he⟩ := floodReturn_error protocol s false false (by simp)
      exact ⟨cs, hcs, by
        rw [flood_of_done dataBuffer protocol environment s write read fuel _ r false _ _ _
          hrun hr rfl h2, he]⟩
  refine ⟨_, hrun, by simpa using hnew, by simp, rfl, ?_, hdone, ?_⟩
  · intro read fuel
    cases hr : receiver s read fuel with
    | done r =>
      obtain ⟨cs, -, he⟩ := hdone read fuel r hr
      rw [he]; simp
    | panic => exact absurd hr (receiverLoop_ne_panic s read fuel 0 0)
    | pending =>
      rw [flood_of_pending dataBuffer protocol environment s write read fuel _ hrun hr]
      simp
  · intro read fuel hr
    exact flood_of_pending dataBuffer protocol environment s write read fuel _ hrun hr

/-- Instances of the amended C7: `s = 3 MiB` with the second write (`j = 1`)
failing, and `s = 3` on a 10-byte buffer with the only write failing, where
the read fails too and the error returned is `"TCP: 3 did not finish "`. -/
theorem flood_write_failure_witness :
    (0 < 3145728 ∧ 1 * 1048576 < 3145728 ∧
    min 3145728 ((1 + 1) * 1048576) ≤ (List.replicate finalMessageSize 0).length ∧
    (∀ i, i < 1 → (WriteResult.mk 0 (decide (i = 1))).err = false) ∧
    ∃ st, sender (List.replicate finalMessageSize 0) 3145728 (fun i => ⟨0, decide (i = 1)⟩) =
        Run.done st ∧
      st.writes.length = 1 + 1 ∧ st.totalSent = 1 * 1048576 ∧
      st.signals.head? = some false ∧
      (∀ read fuel, flood (List.replicate finalMessageSize 0) "TCP" "Local" 3145728
        (fun i => ⟨0, decide (i = 1)⟩) read fuel ≠ Run.done none) ∧
      (∀ read fuel r, receiver 3145728 read fuel = Run.done r →
        ∃ cs, IsDecimalText cs 3145728 ∧
          flood (List.replicate finalMessageSize 0) "TCP" "Local" 3145728
            (fun i => ⟨0, decide (i = 1)⟩) read fuel =
            Run.done (some ("TCP" ++ ": " ++ String.mk cs ++ " did not finish "))) ∧
      (∀ read fuel, receiver 3145728 read fuel = Run.pending →
        flood (List.replicate finalMessageSize 0) "TCP" "Local" 3145728
          (fun i => ⟨0, decide (i = 1)⟩) read fuel = Run.pending)) ∧
    (0 < 3 ∧ 0 * 1048576 < 3 ∧ min 3 ((0 + 1) * 1048576) ≤ (List.replicate 10 7).length ∧
    (WriteResult.mk 0 true).err = true ∧
    sender (List.replicate 10 7) 3 (fun _ => ⟨0, true⟩) =
      Run.done ⟨[⟨0, 3⟩], 0, 3, [false, true]⟩ ∧
    flood (List.replicate 10 7) "TCP" "Local" 3 (fun _ => ⟨0, true⟩) (fun _ => ⟨[], true⟩) 1 =
      Run.done (some "TCP: 3 did not finish ") ∧
    ∃ st, sender (List.replicate 10 7) 3 (fun _ => ⟨0, true⟩) = Run.done st ∧
      st.writes.length = 0 + 1 ∧ st.totalSent = 0 * 1048576 ∧
      st.signals.head? = some false ∧
      (∀ read fuel, flood (List.replicate 10 7) "TCP" "Local" 3
        (fun _ => ⟨0, true⟩) read fuel ≠ Run.done none) ∧
      (∀ read fuel r, receiver 3 read fuel = Run.done r →
        ∃ cs, IsDecimalText cs 3 ∧
          flood (List.replicate 10 7) "TCP" "Local" 3 (fun _ => ⟨0, true⟩) read fuel =
            Run.done (some ("TCP" ++ ": " ++ String.mk cs ++ " did not finish "))) ∧
      (∀ read fuel, receiver 3 read fuel = Run.pending →
        flood (List.replicate 10 7) "TCP" "Local" 3 (fun _ => ⟨0, true⟩) read fuel =
          Run.pending)) :=
  ⟨⟨by decide, by decide, by rw [List.length_replicate]; decide, by decide,
    flood_write_failure (List.replicate finalMessageSize 0) "TCP" "Local" 3145728 1
      (fun i => ⟨0, decide (i = 1)⟩) (by decide) (by decide)
      (by rw [List.length_replicate]; decide) (by decide) (by decide)⟩,
   ⟨by decide, by decide, by decide, rfl, by decide, by decide,
    flood_write_failure (List.replicate 10 7) "TCP" "Local" 3 0
      (fun _ => ⟨0, true⟩) (by decide) (by decide) (by decide)
      (fun i hi => absurd hi (Nat.not_lt_zero i)) rfl⟩⟩

/-- C7 as stated fails: with size 1, the first write (`j = 0`, `k = 0`)
returning an error and every read delivering, without error, the frame of the
count 0, the sender stops with the signal `false`, but the receiver never
sends its signal and `flood` reports nothing: it does not return, so it does
not report the failure. -/
theorem write_failure_not_reported :
    (WriteResult.mk 0 true).err = true ∧
    sender (List.replicate 8 7) 1 (fun _ => ⟨0, true⟩) =
      Run.done ⟨[⟨0, 1⟩], 0, 1, [false, true]⟩ ∧
    ackFrame 0 = some [0, 0, 0, 0, 0, 0, 0, 48] ∧
    (∀ N, receiver 1 (fun _ => ⟨[0, 0, 0, 0, 0, 0, 0, 48], false⟩) N = Run.pending) ∧
    (∀ N res, flood (List.replicate 8 7) "TCP" "Local" 1 (fun _ => ⟨0, true⟩)
      (fun _ => ⟨[0, 0, 0, 0, 0, 0, 0, 48], false⟩) N ≠ Run.done res) := by
  have hp : ∀ N, receiver 1 (fun _ => ⟨[0, 0, 0, 0, 0, 0, 0, 48], false⟩) N = Run.pending :=
    fun N => receiverLoop_zero_frames 1 (fun _ => ⟨[0, 0, 0, 0, 0, 0, 0, 48], false⟩)
      (fun _ => ⟨rfl, (by decide : decodeAck (fillBuf [0, 0, 0, 0, 0, 0, 0, 48]) = 0)⟩)
      N 0 0 (by decide) (by decide) (by decide)
  exact ⟨rfl, by decide, by decide, hp, fun N res =>
    flood_ne_done_of_pending _ _ _ _ _ _ N (hp N) res⟩

/-! ## Lemmas on the sweep drivers -/

theorem doubling_sweep : doubling (finalMessageSize + 1) initialMessageSize = sweepSizes := by
  decide

theorem doublingIdx_sweep :
    doublingIdx (finalMessageSize + 1) initialMessageSize 0 =
      (List.range 27).map (fun i => (2 ^ i, i)) := by
  decide

/-- The raw sweep loop around a body that never returns an error runs the body
at each size of the doubling sequence and then returns `nil`. -/
theorem rawSweep_trace (body : Nat → List Event × Step)
    (hbody : ∀ size, (body size).2 = Step.next) :
    ∀ (fuel size : Nat), 0 < size → finalMessageSize < fuel + size →
      rawSweep body fuel size =
        ((doubling fuel size).flatMap (fun s => (body s).1), Run.done none) := by
  intro fuel
  induction fuel with
  | zero =>
    intro size _ h
    have : ¬ size ≤ finalMessageSize := by omega
    simp [rawSweep, doubling, this]
  | succ fuel ih =>
    intro size hpos h
    rw [rawSweep, doubling]
    by_cases hle : size ≤ finalMessageSize
    · have hb : body size = ((body size).1, Step.next) := Prod.ext rfl (hbody size)
      simp only [hle, if_true, List.flatMap_cons]
      rw [hb, ih (size * 2) (by omega) (by omega)]
    · simp [hle]

/-- The HTTP sweep loop around a body that never returns an error. -/
theorem httpSweep_trace (body : Nat → Nat → List Event × Step)
    (hbody : ∀ size sizeIndex, (body size sizeIndex).2 = Step.next) :
    ∀ (fuel size sizeIndex : Nat), 0 < size → finalMessageSize < fuel + size →
      httpSweep body fuel size sizeIndex =
        ((doublingIdx fuel size sizeIndex).flatMap (fun p => (body p.1 p.2).1), Run.done none) := by
  intro fuel
  induction fuel with
  | zero =>
    intro size sizeIndex _ h
    have : ¬ size ≤ finalMessageSize := by omega
    simp [httpSweep, doublingIdx, this]
  | succ fuel ih =>
    intro size sizeIndex hpos h
    rw [httpSweep, doublingIdx]
    by_cases hle : size ≤ finalMessageSize
    · have hb : body size sizeIndex = ((body size sizeIndex).1, Step.next) :=
        Prod.ext rfl (hbody size sizeIndex)
      simp only [hle, if_true, List.flatMap_cons]
      rw [hb, ih (size * 2) (sizeIndex + 1) (by omega) (by omega)]
    · simp [hle]

theorem floodBatch_ok (protocol : String) (returns : Nat → Bool) (res : Nat → Option String)
    (size : Nat) (hret : ∀ j, returns j = true) :
    ∀ (remaining fileNum : Nat) (err : Option String),
      floodBatch protocol returns res size remaining fileNum err =
        ((List.range' fileNum remaining).map (fun j => Event.flood protocol size j),
          some (if remaining = 0 then err else res (fileNum + remaining - 1))) := by
  intro remaining
  induction remaining with
  | zero => intro fileNum err; simp [floodBatch]
  | succ r ih =>
    intro fileNum err
    simp only [floodBatch, hret, if_true, ih, List.range'_succ, List.map_cons]
    by_cases hr : r = 0
    · subst hr; simp
    · have e : fileNum + 1 + r - 1 = fileNum + (r + 1) - 1 := by omega
      simp [hr, e]

theorem floodHttpBatch_ok (protocol : String) (returns : Nat → Bool)
    (res : Nat → Option String) (size : Nat) (sizeIndex : Nat) (hret : ∀ j, returns j = true) :
    ∀ (remaining fileNum : Nat) (err : Option String),
      floodHttpBatch protocol returns res size sizeIndex remaining fileNum err =
        ((List.range' fileNum remaining).map (fun j => Event.floodHttp protocol size sizeIndex j),
          some (if remaining = 0 then err else res (fileNum + remaining - 1))) := by
  intro remaining
  induction remaining with
  | zero => intro fileNum err; simp [floodHttpBatch]
  | succ r ih =>
    intro fileNum err
    simp only [floodHttpBatch, hret, if_true, ih, List.range'_succ, List.map_cons]
    by_cases hr : r = 0
    · subst hr; simp
    · have e : fileNum + 1 + r - 1 = fileNum + (r + 1) - 1 := by omega
      simp [hr, e]

theorem floodHttpMultiplex_ok (protocol : String) (returns : Nat → Bool)
    (res : Nat → Option String) (lastWriter size sizeIndex n : Nat)
    (hret : ∀ j, returns j = true) :
    floodHttpMultiplex protocol returns res lastWriter size sizeIndex n =
      ((List.range n).map (fun j => Event.floodHttp protocol size sizeIndex j),
        some (if n = 0 then none else res (lastWriter % n))) := by
  have hall : (List.range n).all returns = true := by
    simp [List.all_eq_true, hret]
  simp [floodHttpMultiplex, hall]

theorem sampleBefore_ok (w : World) (h : w.setupOk) (size : Nat) : sampleBefore w size = none := by
  obtain ⟨hm, hc, -, -⟩ := h size
  simp [sampleBefore, hm, hc]

theorem finishBatch_ok (w : World) (h : w.setupOk) (hr : w.reportOk)
    (protocol environment kind : String) (n size : Nat) (err : Option String) :
    finishBatch w protocol environment kind n size err =
      (afterBatch protocol environment kind n size err, Step.next) := by
  obtain ⟨hm, hc, -, -⟩ := h size
  cases err with
  | some e => simp [finishBatch, afterBatch]
  | none =>
    simp only [finishBatch, afterBatch, hm, hc, report, hr size]
    split <;> rfl

/-- Projections of the events of one iteration: a probe, the batch start, the
batch, and what follows the batch. -/
theorem iteration_batchSizes (probe : Event) (size : Nat) (bevs fevs : List Event)
    (hp : batchSizeOf probe = none) (hb : ∀ e ∈ bevs, batchSizeOf e = none)
    (hf : ∀ e ∈ fevs, batchSizeOf e = none) :
    batchSizes (probe :: Event.floodStart size :: bevs ++ fevs) = [size] := by
  have h1 : List.filterMap batchSizeOf bevs = [] := List.filterMap_eq_nil_iff.mpr hb
  have h2 : List.filterMap batchSizeOf fevs = [] := List.filterMap_eq_nil_iff.mpr hf
  rw [batchSizes, List.cons_append, List.filterMap_cons, hp]
  simp [batchSizeOf, h1, h2]

theorem iteration_floodCalls (probe : Event) (size : Nat) (bevs fevs : List Event)
    (hp : floodCallOf probe = none) (hf : ∀ e ∈ fevs, floodCallOf e = none) :
    floodCalls (probe :: Event.floodStart size :: bevs ++ fevs) = floodCalls bevs := by
  have h2 : List.filterMap floodCallOf fevs = [] := List.filterMap_eq_nil_iff.mpr hf
  rw [floodCalls, List.cons_append, List.filterMap_cons, hp]
  simp [floodCallOf, h2, floodCalls]

theorem afterBatch_batchSizeOf (protocol environment kind : String) (n size : Nat)
    (err : Option String) :
    ∀ e ∈ afterBatch protocol environment kind n size err, batchSizeOf e = none := by
  intro e he
  unfold afterBatch at he
  cases err with
  | some x => simp at he; subst he; rfl
  | none =>
    simp only at he
    split at he <;> simp at he <;> rcases he with rfl | rfl <;> rfl

theorem afterBatch_floodCallOf (protocol environment kind : String) (n size : Nat)
    (err : Option String) :
    ∀ e ∈ afterBatch protocol environment kind n size err, floodCallOf e = none := by
  intro e he
  unfold afterBatch at he
  cases err with
  | some x => simp at he; subst he; rfl
  | none =>
    simp only at he
    split at he <;> simp at he <;> rcases he with rfl | rfl <;> rfl

theorem floodCalls_flood_map (protocol : String) (size : Nat) (l : List Nat) :
    floodCalls (l.map (fun j => Event.flood protocol size j)) = l.map (fun j => (size, j)) := by
  induction l with
  | nil => rfl
  | cons x t ih =>
    simp only [floodCalls] at ih
    simp [floodCalls, floodCallOf, ih]

theorem floodCalls_floodHttp_map (protocol : String) (size sizeIndex : Nat) (l : List Nat) :
    floodCalls (l.map (fun j => Event.floodHttp protocol size sizeIndex j)) =
      l.map (fun j => (size, j)) := by
  induction l with
  | nil => rfl
  | cons x t ih =>
    simp only [floodCalls] at ih
    simp [floodCalls, floodCallOf, ih]

theorem flatMap_singleton_map {α β : Type} (f : α → β) (l : List α) :
    l.flatMap (fun a => [f a]) = l.map f := by
  induction l with
  | nil => rfl
  | cons x t ih => simp [ih]

/-- A raw sweep whose iterations all have the shape probe, batch start, batch,
after-batch events and never return an error: where it starts batches and
which transfers it invokes. -/
theorem rawSweep_shape (body : Nat → List Event × Step) (probe : Nat → Event)
    (bevs fevs : Nat → List Event)
    (hbody : ∀ size,
      body size = (probe size :: Event.floodStart size :: bevs size ++ fevs size, Step.next))
    (hp1 : ∀ size, batchSizeOf (probe size) = none)
    (hp2 : ∀ size, floodCallOf (probe size) = none)
    (hb : ∀ size, ∀ e ∈ bevs size, batchSizeOf e = none)
    (hf1 : ∀ size, ∀ e ∈ fevs size, batchSizeOf e = none)
    (hf2 : ∀ size, ∀ e ∈ fevs size, floodCallOf e = none) :
    RunsBatchesAt (rawSweep body (finalMessageSize + 1) initialMessageSize) sweepSizes ∧
      MakesFloodCalls (rawSweep body (finalMessageSize + 1) initialMessageSize)
        (sweepSizes.flatMap (fun s => floodCalls (bevs s))) := by
  have htr := rawSweep_trace body (fun size => by rw [hbody size]) (finalMessageSize + 1)
    initialMessageSize (by decide) (by unfold initialMessageSize; omega)
  rw [doubling_sweep] at htr
  refine ⟨⟨by rw [htr], ?_⟩, ⟨by rw [htr], ?_⟩⟩ <;> rw [htr]
  · rw [batchSizes, List.filterMap_flatMap]
    have : ∀ s, List.filterMap batchSizeOf (body s).1 = [s] := fun s => by
      rw [hbody s]
      exact iteration_batchSizes _ _ _ _ (hp1 s) (hb s) (hf1 s)
    simp only [this, List.flatMap_singleton']
  · rw [floodCalls, List.filterMap_flatMap]
    have : ∀ s, List.filterMap floodCallOf (body s).1 = floodCalls (bevs s) := fun s => by
      rw [hbody s]
      exact iteration_floodCalls _ _ _ _ (hp2 s) (hf2 s)
    simp only [this]

/-- The same for an HTTP sweep. -/
theorem httpSweep_shape (body : Nat → Nat → List Event × Step) (probe : Event)
    (bevs : Nat → Nat → List Event) (fevs : Nat → List Event) (n : Nat)
    (hbody : ∀ size sizeIndex,
      body size sizeIndex =
        (probe :: Event.floodStart size :: bevs size sizeIndex ++ fevs size, Step.next))
    (hp1 : batchSizeOf probe = none)
    (hp2 : floodCallOf probe = none)
    (hb : ∀ size sizeIndex, ∀ e ∈ bevs size sizeIndex, batchSizeOf e = none)
    (hbc : ∀ size sizeIndex, floodCalls (bevs size sizeIndex) =
      (List.range n).map (fun j => (size, j)))
    (hf1 : ∀ size, ∀ e ∈ fevs size, batchSizeOf e = none)
    (hf2 : ∀ size, ∀ e ∈ fevs size, floodCallOf e = none) :
    RunsBatchesAt (httpSweep body (finalMessageSize + 1) initialMessageSize 0) sweepSizes ∧
      MakesFloodCalls (httpSweep body (finalMessageSize + 1) initialMessageSize 0)
        (sweepSizes.flatMap (fun s => (List.range n).map (fun j => (s, j)))) := by
  have htr := httpSweep_trace body (fun size sizeIndex => by rw [hbody size sizeIndex])
    (finalMessageSize + 1) initialMessageSize 0 (by decide) (by unfold initialMessageSize; omega)
  rw [doublingIdx_sweep] at htr
  refine ⟨⟨by rw [htr], ?_⟩, ⟨by rw [htr], ?_⟩⟩ <;> rw [htr]
  · rw [batchSizes, List.filterMap_flatMap]
    have : ∀ p : Nat × Nat, List.filterMap batchSizeOf (body p.1 p.2).1 = [p.1] := fun p => by
      rw [hbody p.1 p.2]
      exact iteration_batchSizes _ _ _ _ hp1 (hb p.1 p.2) (hf1 p.1)
    simp only [this, sweepSizes, List.flatMap_map]
    exact flatMap_singleton_map _ _
  · rw [floodCalls, List.filterMap_flatMap]
    have : ∀ p : Nat × Nat, List.filterMap floodCallOf (body p.1 p.2).1 =
        (List.range n).map (fun j => (p.1, j)) := fun p => by
      rw [hbody p.1 p.2, ← hbc p.1 p.2]
      exact iteration_floodCalls _ _ _ _ hp2 (hf2 p.1)
    simp only [this, sweepSizes, List.flatMap_map]

theorem batchSizeOf_flood_map (protocol : String) (size : Nat) (l : List Nat) :
    ∀ e ∈ l.map (fun j => Event.flood protocol size j), batchSizeOf e = none := by
  intro e he
  obtain ⟨j, -, rfl⟩ := List.mem_map.mp he
  rfl

theorem batchSizeOf_floodHttp_map (protocol : String) (size sizeIndex : Nat) (l : List Nat) :
    ∀ e ∈ l.map (fun j => Event.floodHttp protocol size sizeIndex j), batchSizeOf e = none := by
  intro e he
  obtain ⟨j, -, rfl⟩ := List.mem_map.mp he
  rfl

theorem quicIteration_eq (w : World) (h : w.setupOk) (hr : w.reportOk) (ht : w.transfersReturn)
    (environment : String) (size : Nat) :
    quicIteration w environment size =
      (Event.getFirstByte "QUIC" :: Event.floodStart size ::
        (List.range filesToSend).map (fun j => Event.flood "QUIC" size j) ++
        afterBatch "QUIC" environment "Raw" filesToSend size
          (w.floodErr size (filesToSend - 1)), Step.next) := by
  obtain ⟨-, -, hd, ho⟩ := h size
  simp only [quicIteration, sampleBefore_ok w h, hd, ho, (ht size 0).1, if_true,
    finishBatch_ok w h hr,
    floodBatch_ok _ _ _ _ (fun j => (ht size j).2.1), List.range_eq_range']
  simp [filesToSend]

theorem tcpIteration_eq (protocolName : String) (w : World) (h : w.setupOk) (hr : w.reportOk)
    (ht : w.transfersReturn) (environment : String) (size : Nat) :
    tcpIteration protocolName w environment size =
      (Event.getFirstByte protocolName :: Event.floodStart size ::
        (List.range filesToSend).map (fun j => Event.flood protocolName size j) ++
        afterBatch protocolName environment "Raw" filesToSend size
          (w.floodErr size (filesToSend - 1)), Step.next) := by
  obtain ⟨-, -, hd, -⟩ := h size
  simp only [tcpIteration, sampleBefore_ok w h, hd, (ht size 0).1, if_true,
    finishBatch_ok w h hr,
    floodBatch_ok _ _ _ _ (fun j => (ht size j).2.1), List.range_eq_range']
  simp [filesToSend]

theorem httpIteration_eq (w : World) (h : w.setupOk) (hr : w.reportOk) (ht : w.transfersReturn)
    (environment : String) (size sizeIndex : Nat) :
    httpIteration w environment size sizeIndex =
      (Event.getFirstByteHttp "HTTP/1" :: Event.floodStart size ::
        (List.range filesToSend).map (fun j => Event.floodHttp "HTTP/1" size sizeIndex j) ++
        afterBatch "HTTP/1" environment "HTTP" filesToSend size
          (w.floodHttpErr size (filesToSend - 1)), Step.next) := by
  simp only [httpIteration, sampleBefore_ok w h, (ht size 0).1, if_true,
    finishBatch_ok w h hr,
    floodHttpBatch_ok _ _ _ _ _ (fun j => (ht size j).2.2), List.range_eq_range']
  simp [filesToSend]

theorem multiIteration_eq (protocolName : String) (w : World) (h : w.setupOk) (hr : w.reportOk)
    (ht : w.transfersReturn) (environment : String) (multiplex : Bool) (n size sizeIndex : Nat) :
    multiIteration protocolName w environment multiplex n size sizeIndex =
      (Event.getFirstByteHttp protocolName :: Event.floodStart size ::
        (List.range n).map (fun j => Event.floodHttp protocolName size sizeIndex j) ++
        afterBatch protocolName environment "HTTP" n size
          (if n = 0 then none
            else w.floodHttpErr size (if multiplex then w.lastWriter size % n else n - 1)),
        Step.next) := by
  cases multiplex
  · simp only [multiIteration, sampleBefore_ok w h, (ht size 0).1, if_true,
      finishBatch_ok w h hr,
      floodHttpBatch_ok _ _ _ _ _ (fun j => (ht size j).2.2), List.range_eq_range',
      Bool.false_eq_true, if_false, Nat.zero_add]
  · simp only [multiIteration, sampleBefore_ok w h, (ht size 0).1, if_true,
      finishBatch_ok w h hr,
      floodHttpMultiplex_ok _ _ _ _ _ _ _ (fun j => (ht size j).2.2), if_true]

/-- Where each driver starts batches and which transfers it invokes, when
setup, sampling and the CSV file succeed and every transfer returns; `n` is
`multiFilesToSend`. -/
theorem drivers_shape (w : World) (environment : String) (multiplex : Bool) (n : Nat)
    (h : w.setupOk) (hr : w.reportOk) (ht : w.transfersReturn) :
    (RunsBatchesAt (clientQuicMain w environment) sweepSizes ∧
      MakesFloodCalls (clientQuicMain w environment)
        (sweepSizes.flatMap (fun s => (List.range filesToSend).map (fun j => (s, j))))) ∧
    (RunsBatchesAt (clientTcpMain w environment) sweepSizes ∧
      MakesFloodCalls (clientTcpMain w environment)
        (sweepSizes.flatMap (fun s => (List.range filesToSend).map (fun j => (s, j))))) ∧
    (RunsBatchesAt (clientTcpTlsMain w environment) sweepSizes ∧
      MakesFloodCalls (clientTcpTlsMain w environment)
        (sweepSizes.flatMap (fun s => (List.range filesToSend).map (fun j => (s, j))))) ∧
    (RunsBatchesAt (clientHttpMain w environment) sweepSizes ∧
      MakesFloodCalls (clientHttpMain w environment)
        (sweepSizes.flatMap (fun s => (List.range filesToSend).map (fun j => (s, j))))) ∧
    (RunsBatchesAt (clientHttpsMain w environment multiplex n) sweepSizes ∧
      MakesFloodCalls (clientHttpsMain w environment multiplex n)
        (sweepSizes.flatMap (fun s => (List.range n).map (fun j => (s, j))))) ∧
    (RunsBatchesAt (clientHttp3Main w environment multiplex n) sweepSizes ∧
      MakesFloodCalls (clientHttp3Main w environment multiplex n)
        (sweepSizes.flatMap (fun s => (List.range n).map (fun j => (s, j))))) := by
  refine ⟨?_, ?_, ?_, ?_, ?_, ?_⟩
  · have := rawSweep_shape (quicIteration w environment) (fun _ => Event.getFirstByte "QUIC")
      _ _ (quicIteration_eq w h hr ht environment) (fun _ => rfl) (fun _ => rfl)
      (fun size => batchSizeOf_flood_map _ size _)
      (fun size => afterBatch_batchSizeOf _ _ _ _ size _)
      (fun size => afterBatch_floodCallOf _ _ _ _ size _)
    simpa only [floodCalls_flood_map] using this
  · have := rawSweep_shape (tcpIteration "TCP" w environment) (fun _ => Event.getFirstByte "TCP")
      _ _ (tcpIteration_eq "TCP" w h hr ht environment) (fun _ => rfl) (fun _ => rfl)
      (fun size => batchSizeOf_flood_map _ size _)
      (fun size => afterBatch_batchSizeOf _ _ _ _ size _)
      (fun size => afterBatch_floodCallOf _ _ _ _ size _)
    simpa only [floodCalls_flood_map] using this
  · have := rawSweep_shape (tcpIteration "TCP_TLS" w environment)
      (fun _ => Event.getFirstByte "TCP_TLS")
      _ _ (tcpIteration_eq "TCP_TLS" w h hr ht environment) (fun _ => rfl) (fun _ => rfl)
      (fun size => batchSizeOf_flood_map _ size _)
      (fun size => afterBatch_batchSizeOf _ _ _ _ size _)
      (fun size => afterBatch_floodCallOf _ _ _ _ size _)
    simpa only [floodCalls_flood_map] using this
  · exact httpSweep_shape (httpIteration w environment) (Event.getFirstByteHttp "HTTP/1")
      _ _ filesToSend (httpIteration_eq w h hr ht environment) rfl rfl
      (fun size sizeIndex => batchSizeOf_floodHttp_map _ size sizeIndex _)
      (fun size sizeIndex => floodCalls_floodHttp_map _ size sizeIndex _)
      (fun size => afterBatch_batchSizeOf _ _ _ _ size _)
      (fun size => afterBatch_floodCallOf _ _ _ _ size _)
  · exact httpSweep_shape _ (Event.getFirstByteHttp _)
      _ _ n (multiIteration_eq _ w h hr ht environment multiplex n) rfl rfl
      (fun size sizeIndex => batchSizeOf_floodHttp_map _ size sizeIndex _)
      (fun size sizeIndex => floodCalls_floodHttp_map _ size sizeIndex _)
      (fun size => afterBatch_batchSizeOf _ _ _ _ size _)
      (fun size => afterBatch_floodCallOf _ _ _ _ size _)
  · exact httpSweep_shape _ (Event.getFirstByteHttp _)
      _ _ n (multiIteration_eq _ w h hr ht environment multiplex n) rfl rfl
      (fun size sizeIndex => batchSizeOf_floodHttp_map _ size sizeIndex _)
      (fun size sizeIndex => floodCalls_floodHttp_map _ size sizeIndex _)
      (fun size => afterBatch_batchSizeOf _ _ _ _ size _)
      (fun size => afterBatch_floodCallOf _ _ _ _ size _)

/-- The step budget of a raw driver is never used up: the driver is pending
only when one of its iterations never ends. -/
theorem rawSweep_ne_pending (body : Nat → List Event × Step)
    (hbody : ∀ size, (body size).2 ≠ Step.blocked) :
    ∀ (fuel size : Nat), 0 < size → finalMessageSize < fuel + size →
      (rawSweep body fuel size).2 ≠ Run.pending := by
  intro fuel
  induction fuel with
  | zero =>
    intro size _ h
    have : ¬ size ≤ finalMessageSize := by omega
    simp [rawSweep, this]
  | succ fuel ih =>
    intro size hpos h
    rw [rawSweep]
    by_cases hle : size ≤ finalMessageSize
    · simp only [hle, if_true]
      have hnb := hbody size
      rcases hb : body size with ⟨evs, st⟩
      rw [hb] at hnb
      cases st with
      | next => simpa using ih (size * 2) (by omega) (by omega)
      | ret e => simp
      | panic => simp
      | blocked => exact absurd rfl hnb
    · simp [hle]

/-- The step budget of an HTTP driver is never used up. -/
theorem httpSweep_ne_pending (body : Nat → Nat → List Event × Step)
    (hbody : ∀ size sizeIndex, (body size sizeIndex).2 ≠ Step.blocked) :
    ∀ (fuel size sizeIndex : Nat), 0 < size → finalMessageSize < fuel + size →
      (httpSweep body fuel size sizeIndex).2 ≠ Run.pending := by
  intro fuel
  induction fuel with
  | zero =>
    intro size sizeIndex _ h
    have : ¬ size ≤ finalMessageSize := by omega
    simp [httpSweep, this]
  | succ fuel ih =>
    intro size sizeIndex hpos h
    rw [httpSweep]
    by_cases hle : size ≤ finalMessageSize
    · simp only [hle, if_true]
      have hnb := hbody size sizeIndex
      rcases hb : body size sizeIndex with ⟨evs, st⟩
      rw [hb] at hnb
      cases st with
      | next => simpa using ih (size * 2) (sizeIndex + 1) (by omega) (by omega)
      | ret e => simp
      | panic => simp
      | blocked => exact absurd rfl hnb
    · simp [hle]

/-! ## Lemmas on the repetitions of a batch -/

theorem finishBatch_floodCallOf (w : World) (protocol environment kind : String)
    (n size : Nat) (err : Option String) :
    ∀ e ∈ (finishBatch w protocol environment kind n size err).1, floodCallOf e = none := by
  intro e he
  unfold finishBatch at he
  cases err with
  | some x => simp at he; subst he; rfl
  | none =>
    simp only at he
    cases h1 : w.cpuGet size true with
    | some e1 => simp [h1] at he
    | none =>
      cases h2 : w.memoryGet size true with
      | some e2 => simp [h1, h2] at he
      | none =>
        simp only [h1, h2, report] at he
        split at he
        · split at he
          · simp at he; subst he; rfl
          · simp at he; rcases he with rfl | rfl <;> rfl
        · simp at he; subst he; rfl

/-- The transfers invoked by the loop of the raw drivers: all at the size of
the batch, with numbers from `fileNum` on, the first one always, and the next
one after each one that returns. -/
theorem floodBatch_calls (protocol : String) (returns : Nat → Bool) (res : Nat → Option String)
    (size : Nat) :
    ∀ (remaining fileNum : Nat) (err : Option String),
      (0 < remaining →
        (size, fileNum) ∈ floodCalls (floodBatch protocol returns res size remaining fileNum err).1) ∧
      ∀ sz j, (sz, j) ∈ floodCalls (floodBatch protocol returns res size remaining fileNum err).1 →
        sz = size ∧ fileNum ≤ j ∧
        (returns j = true → j + 1 < fileNum + remaining →
          (size, j + 1) ∈
            floodCalls (floodBatch protocol returns res size remaining fileNum err).1) := by
  intro remaining
  induction remaining with
  | zero =>
    intro fileNum err
    simp [floodBatch, floodCalls]
  | succ r ih =>
    intro fileNum err
    by_cases hret : returns fileNum = true
    · obtain ⟨ihd, ihc⟩ := ih (fileNum + 1) (res fileNum)
      have hcalls : floodCalls (floodBatch protocol returns res size (r + 1) fileNum err).1 =
          (size, fileNum) ::
            floodCalls (floodBatch protocol returns res size r (fileNum + 1) (res fileNum)).1 := by
        simp [floodBatch, hret, floodCalls, floodCallOf]
      rw [hcalls]
      refine ⟨fun _ => List.mem_cons_self _ _, ?_⟩
      intro sz j hmem
      simp only [List.mem_cons, Prod.mk.injEq] at hmem
      rcases hmem with ⟨rfl, rfl⟩ | hmem
      · refine ⟨rfl, Nat.le_refl _, fun _ hlt => ?_⟩
        exact List.mem_cons_of_mem _ (ihd (by omega))
      · obtain ⟨h1, h2, h3⟩ := ihc sz j hmem
        refine ⟨h1, by omega, fun hr hlt => ?_⟩
        exact List.mem_cons_of_mem _ (h3 hr (by omega))
    · have hcalls : floodCalls (floodBatch protocol returns res size (r + 1) fileNum err).1 =
          [(size, fileNum)] := by
        simp [floodBatch, hret, floodCalls, floodCallOf]
      rw [hcalls]
      refine ⟨fun _ => List.mem_singleton_self _, ?_⟩
      intro sz j hmem
      simp only [List.mem_singleton, Prod.mk.injEq] at hmem
      obtain ⟨rfl, rfl⟩ := hmem
      exact ⟨rfl, Nat.le_refl _, fun hr _ => absurd hr hret⟩

/-- The same for the loop around `floodHttp`. -/
theorem floodHttpBatch_calls (protocol : String) (returns : Nat → Bool)
    (res : Nat → Option String) (size sizeIndex : Nat) :
    ∀ (remaining fileNum : Nat) (err : Option String),
      (0 < remaining →
        (size, fileNum) ∈
          floodCalls (floodHttpBatch protocol returns res size sizeIndex remaining fileNum err).1) ∧
      ∀ sz j,
        (sz, j) ∈
            floodCalls (floodHttpBatch protocol returns res size sizeIndex remaining fileNum err).1 →
        sz = size ∧ fileNum ≤ j ∧
        (returns j = true → j + 1 < fileNum + remaining →
          (size, j + 1) ∈
            floodCalls
              (floodHttpBatch protocol returns res size sizeIndex remaining fileNum err).1) := by
  intro remaining
  induction remaining with
  | zero =>
    intro fileNum err
    simp [floodHttpBatch, floodCalls]
  | succ r ih =>
    intro fileNum err
    by_cases hret : returns fileNum = true
    · obtain ⟨ihd, ihc⟩ := ih (fileNum + 1) (res fileNum)
      have hcalls :
          floodCalls (floodHttpBatch protocol returns res size sizeIndex (r + 1) fileNum err).1 =
          (size, fileNum) ::
            floodCalls
              (floodHttpBatch protocol returns res size sizeIndex r (fileNum + 1) (res fileNum)).1 := by
        simp [floodHttpBatch, hret, floodCalls, floodCallOf]
      rw [hcalls]
      refine ⟨fun _ => List.mem_cons_self _ _, ?_⟩
      intro sz j hmem
      simp only [List.mem_cons, Prod.mk.injEq] at hmem
      rcases hmem with ⟨rfl, rfl⟩ | hmem
      · refine ⟨rfl, Nat.le_refl _, fun _ hlt => ?_⟩
        exact List.mem_cons_of_mem _ (ihd (by omega))
      · obtain ⟨h1, h2, h3⟩ := ihc sz j hmem
        refine ⟨h1, by omega, fun hr hlt => ?_⟩
        exact List.mem_cons_of_mem _ (h3 hr (by omega))
    · have hcalls :
          floodCalls (floodHttpBatch protocol returns res size sizeIndex (r + 1) fileNum err).1 =
          [(size, fileNum)] := by
        simp [floodHttpBatch, hret, floodCalls, floodCallOf]
      rw [hcalls]
      refine ⟨fun _ => List.mem_singleton_self _, ?_⟩
      intro sz j hmem
      simp only [List.mem_singleton, Prod.mk.injEq] at hmem
      obtain ⟨rfl, rfl⟩ := hmem
      exact ⟨rfl, Nat.le_refl _, fun hr _ => absurd hr hret⟩

/-- The transfers started by the multiplexed branch: all `n` of them. -/
theorem floodHttpMultiplex_calls (protocol : String) (returns : Nat → Bool)
    (res : Nat → Option String) (lastWriter size sizeIndex n : Nat) (sz j : Nat) :
    (sz, j) ∈ floodCalls (floodHttpMultiplex protocol returns res lastWriter size sizeIndex n).1 ↔
      sz = size ∧ j < n := by
  simp only [floodHttpMultiplex, floodCalls_floodHttp_map, List.mem_map, List.mem_range,
    Prod.mk.injEq]
  constructor
  · rintro ⟨a, ha, rfl, rfl⟩
    exact ⟨rfl, ha⟩
  · rintro ⟨rfl, hj⟩
    exact ⟨j, hj, rfl, rfl⟩


theorem probe_floodCalls (probe : Event) (size : Nat) (bevs : List Event)
    (hp : floodCallOf probe = none) :
    floodCalls (probe :: Event.floodStart size :: bevs) = floodCalls bevs := by
  rw [floodCalls, List.filterMap_cons, hp]
  simp [floodCallOf, floodCalls]

theorem nextRepetition_nil (returns : Nat → Nat → Bool) (n : Nat) :
    NextRepetitionFollows returns n [] := by
  intro size j h
  simp at h

theorem nextRepetition_floodBatch (protocol : String) (w : World) (size : Nat) :
    NextRepetitionFollows w.floodReturns filesToSend
      (floodCalls (floodBatch protocol (w.floodReturns size) (w.floodErr size) size
        filesToSend 0 none).1) := by
  intro sz j hmem hret hlt
  obtain ⟨h1, -, h3⟩ := (floodBatch_calls protocol (w.floodReturns size) (w.floodErr size) size
    filesToSend 0 none).2 sz j hmem
  subst h1
  exact h3 hret (by omega)

theorem nextRepetition_floodHttpBatch (protocol : String) (w : World) (size sizeIndex n : Nat) :
    NextRepetitionFollows w.floodHttpReturns n
      (floodCalls (floodHttpBatch protocol (w.floodHttpReturns size) (w.floodHttpErr size) size
        sizeIndex n 0 none).1) := by
  intro sz j hmem hret hlt
  obtain ⟨h1, -, h3⟩ := (floodHttpBatch_calls protocol (w.floodHttpReturns size)
    (w.floodHttpErr size) size sizeIndex n 0 none).2 sz j hmem
  subst h1
  exact h3 hret (by omega)

theorem nextRepetition_multiplex (protocol : String) (w : World) (size sizeIndex n : Nat) :
    NextRepetitionFollows w.floodHttpReturns n
      (floodCalls (floodHttpMultiplex protocol (w.floodHttpReturns size) (w.floodHttpErr size)
        (w.lastWriter size) size sizeIndex n).1) := by
  intro sz j hmem _ hlt
  obtain ⟨h1, -⟩ := (floodHttpMultiplex_calls _ _ _ _ _ _ _ sz j).mp hmem
  exact (floodHttpMultiplex_calls _ _ _ _ _ _ _ sz (j + 1)).mpr ⟨h1, hlt⟩

theorem quicIteration_next (w : World) (environment : String) (size : Nat) :
    NextRepetitionFollows w.floodReturns filesToSend
      (floodCalls (quicIteration w environment size).1) := by
  unfold quicIteration
  cases sampleBefore w size with
  | some e => exact nextRepetition_nil _ _
  | none =>
    cases w.dial size with
    | some e => exact nextRepetition_nil _ _
    | none =>
      cases w.openStreamSync size with
      | some e => exact nextRepetition_nil _ _
      | none =>
        by_cases hfb : w.firstByteReturns size = true
        swap
        · simp only [hfb, Bool.false_eq_true, if_false]
          exact nextRepetition_nil _ _
        simp only [hfb, if_true]
        cases hb : (floodBatch "QUIC" (w.floodReturns size) (w.floodErr size) size
            filesToSend 0 none).2 with
        | none =>
          simp only
          rw [probe_floodCalls (Event.getFirstByte "QUIC") _ _ rfl]
          exact nextRepetition_floodBatch "QUIC" w size
        | some err =>
          simp only
          rw [iteration_floodCalls (Event.getFirstByte "QUIC") _ _ _ rfl
            (finishBatch_floodCallOf _ _ _ _ _ _ _)]
          exact nextRepetition_floodBatch "QUIC" w size

theorem tcpIteration_next (protocolName : String) (w : World) (environment : String)
    (size : Nat) :
    NextRepetitionFollows w.floodReturns filesToSend
      (floodCalls (tcpIteration protocolName w environment size).1) := by
  unfold tcpIteration
  cases sampleBefore w size with
  | some e => exact nextRepetition_nil _ _
  | none =>
    cases w.dial size with
    | some e => exact nextRepetition_nil _ _
    | none =>
      by_cases hfb : w.firstByteReturns size = true
      swap
      · simp only [hfb, Bool.false_eq_true, if_false]
        exact nextRepetition_nil _ _
      simp only [hfb, if_true]
      cases hb : (floodBatch protocolName (w.floodReturns size) (w.floodErr size) size
          filesToSend 0 none).2 with
      | none =>
        simp only
        rw [probe_floodCalls (Event.getFirstByte protocolName) _ _ rfl]
        exact nextRepetition_floodBatch protocolName w size
      | some err =>
        simp only
        rw [iteration_floodCalls (Event.getFirstByte protocolName) _ _ _ rfl
          (finishBatch_floodCallOf _ _ _ _ _ _ _)]
        exact nextRepetition_floodBatch protocolName w size

theorem httpIteration_next (w : World) (environment : String) (size sizeIndex : Nat) :
    NextRepetitionFollows w.floodHttpReturns filesToSend
      (floodCalls (httpIteration w environment size sizeIndex).1) := by
  unfold httpIteration
  cases sampleBefore w size with
  | some e => exact nextRepetition_nil _ _
  | none =>
    by_cases hfb : w.firstByteReturns size = true
    swap
    · simp only [hfb, Bool.false_eq_true, if_false]
      exact nextRepetition_nil _ _
    simp only [hfb, if_true]
    cases hb : (floodHttpBatch "HTTP/1" (w.floodHttpReturns size) (w.floodHttpErr size) size
        sizeIndex filesToSend 0 none).2 with
    | none =>
      simp only
      rw [probe_floodCalls (Event.getFirstByteHttp "HTTP/1") _ _ rfl]
      exact nextRepetition_floodHttpBatch "HTTP/1" w size sizeIndex filesToSend
    | some err =>
      simp only
      rw [iteration_floodCalls (Event.getFirstByteHttp "HTTP/1") _ _ _ rfl
        (finishBatch_floodCallOf _ _ _ _ _ _ _)]
      exact nextRepetition_floodHttpBatch "HTTP/1" w size sizeIndex filesToSend

theorem multiIteration_next (protocolName : String) (w : World) (environment : String)
    (multiplex : Bool) (n size sizeIndex : Nat) :
    NextRepetitionFollows w.floodHttpReturns n
      (floodCalls (multiIteration protocolName w environment multiplex n size sizeIndex).1) := by
  unfold multiIteration
  cases sampleBefore w size with
  | some e => exact nextRepetition_nil _ _
  | none =>
    by_cases hfb : w.firstByteReturns size = true
    swap
    · simp only [hfb, Bool.false_eq_true, if_false]
      exact nextRepetition_nil _ _
    cases multiplex with
    | false =>
      simp only [hfb, Bool.false_eq_true, if_false, if_true]
      cases hb : (floodHttpBatch protocolName (w.floodHttpReturns size) (w.floodHttpErr size)
          size sizeIndex n 0 none).2 with
      | none =>
        simp only
        rw [probe_floodCalls (Event.getFirstByteHttp protocolName) _ _ rfl]
        exact nextRepetition_floodHttpBatch protocolName w size sizeIndex n
      | some err =>
        simp only
        rw [iteration_floodCalls (Event.getFirstByteHttp protocolName) _ _ _ rfl
          (finishBatch_floodCallOf _ _ _ _ _ _ _)]
        exact nextRepetition_floodHttpBatch protocolName w size sizeIndex n
    | true =>
      simp only [hfb, if_true]
      cases hb : (floodHttpMultiplex protocolName (w.floodHttpReturns size)
          (w.floodHttpErr size) (w.lastWriter size) size sizeIndex n).2 with
      | none =>
        simp only
        rw [probe_floodCalls (Event.getFirstByteHttp protocolName) _ _ rfl]
        exact nextRepetition_multiplex protocolName w size sizeIndex n
      | some err =>
        simp only
        rw [iteration_floodCalls (Event.getFirstByteHttp protocolName) _ _ _ rfl
          (finishBatch_floodCallOf _ _ _ _ _ _ _)]
        exact nextRepetition_multiplex protocolName w size sizeIndex n

theorem nextRepetition_append (returns : Nat → Nat → Bool) (n : Nat) (a b : List Event)
    (ha : NextRepetitionFollows returns n (floodCalls a))
    (hb : NextRepetitionFollows returns n (floodCalls b)) :
    NextRepetitionFollows returns n (floodCalls (a ++ b)) := by
  intro size j hmem hret hlt
  simp only [floodCalls, List.filterMap_append, List.mem_append] at hmem ⊢
  rcases hmem with hmem | hmem
  · exact Or.inl (ha size j hmem hret hlt)
  · exact Or.inr (hb size j hmem hret hlt)

theorem rawSweep_next (returns : Nat → Nat → Bool) (n : Nat) (body : Nat → List Event × Step)
    (hbody : ∀ size, NextRepetitionFollows returns n (floodCalls (body size).1)) :
    ∀ fuel size, NextRepetitionFollows returns n (floodCalls (rawSweep body fuel size).1) := by
  intro fuel
  induction fuel with
  | zero =>
    intro size
    exact nextRepetition_nil returns n
  | succ fuel ih =>
    intro size
    rw [rawSweep]
    by_cases hle : size ≤ finalMessageSize
    · simp only [hle, if_true]
      have hb := hbody size
      rcases hbs : body size with ⟨evs, st⟩
      rw [hbs] at hb
      cases st with
      | next => exact nextRepetition_append returns n _ _ hb (ih _)
      | ret err => exact hb
      | panic => exact hb
      | blocked => exact hb
    · simp only [hle, if_false]
      exact nextRepetition_nil returns n

theorem httpSweep_next (returns : Nat → Nat → Bool) (n : Nat)
    (body : Nat → Nat → List Event × Step)
    (hbody : ∀ size sizeIndex, NextRepetitionFollows returns n (floodCalls (body size sizeIndex).1)) :
    ∀ fuel size sizeIndex,
      NextRepetitionFollows returns n (floodCalls (httpSweep body fuel size sizeIndex).1) := by
  intro fuel
  induction fuel with
  | zero =>
    intro size sizeIndex
    exact nextRepetition_nil returns n
  | succ fuel ih =>
    intro size sizeIndex
    rw [httpSweep]
    by_cases hle : size ≤ finalMessageSize
    · simp only [hle, if_true]
      have hb := hbody size sizeIndex
      rcases hbs : body size sizeIndex with ⟨evs, st⟩
      rw [hbs] at hb
      cases st with
      | next => exact nextRepetition_append returns n _ _ hb (ih _ _)
      | ret err => exact hb
      | panic => exact hb
      | blocked => exact hb
    · simp only [hle, if_false]
      exact nextRepetition_nil returns n

/-- In every run of every driver, a repetition that returns is followed by
the next one of its batch. -/
theorem drivers_next (w : World) (environment : String) (multiplex : Bool) (n : Nat) :
    NextRepetitionFollows w.floodReturns filesToSend
      (floodCalls (clientQuicMain w environment).1) ∧
    NextRepetitionFollows w.floodReturns filesToSend
      (floodCalls (clientTcpMain w environment).1) ∧
    NextRepetitionFollows w.floodReturns filesToSend
      (floodCalls (clientTcpTlsMain w environment).1) ∧
    NextRepetitionFollows w.floodHttpReturns filesToSend
      (floodCalls (clientHttpMain w environment).1) ∧
    NextRepetitionFollows w.floodHttpReturns n
      (floodCalls (clientHttpsMain w environment multiplex n).1) ∧
    NextRepetitionFollows w.floodHttpReturns n
      (floodCalls (clientHttp3Main w environment multiplex n).1) :=
  ⟨rawSweep_next _ _ _ (quicIteration_next w environment) _ _,
    rawSweep_next _ _ _ (tcpIteration_next "TCP" w environment) _ _,
    rawSweep_next _ _ _ (tcpIteration_next "TCP_TLS" w environment) _ _,
    httpSweep_next _ _ _ (httpIteration_next w environment) _ _ _,
    httpSweep_next _ _ _ (multiIteration_next _ w environment multiplex n) _ _ _,
    httpSweep_next _ _ _ (multiIteration_next _ w environment multiplex n) _ _ _⟩

/-! ## Claims on the sweep drivers -/

/-- C8, as the code has it (sweep sequence): in each of the six sweep
drivers, when connection setup and resource sampling succeed, the probe and
every transfer return (with success or with a failure) and `report` can open
its CSV file,
the driver returns `nil` and the sizes for which it runs a batch are, in
order, exactly `2^0, 2^1, ..., 2^26`: the first is 1, each is twice the one
before, `2^26 = 64 MiB` is measured and the next value `2^27` exceeds 64 MiB;
what the transfers return plays no part. -/
theorem sweep_sequence (w : World) (environment : String) (multiplex : Bool)
    (multiFilesToSend : Nat) (h : w.setupOk) (hr : w.reportOk) (ht : w.transfersReturn) :
    RunsBatchesAt (clientQuicMain w environment) sweepSizes ∧
    RunsBatchesAt (clientTcpMain w environment) sweepSizes ∧
    RunsBatchesAt (clientTcpTlsMain w environment) sweepSizes ∧
    RunsBatchesAt (clientHttpMain w environment) sweepSizes ∧
    RunsBatchesAt (clientHttpsMain w environment multiplex multiFilesToSend) sweepSizes ∧
    RunsBatchesAt (clientHttp3Main w environment multiplex multiFilesToSend) sweepSizes ∧
    sweepSizes = (List.range 27).map (fun i => 2 ^ i) ∧
    2 ^ 26 = finalMessageSize ∧ finalMessageSize < 2 ^ 27 := by
  obtain ⟨h1, h2, h3, h4, h5, h6⟩ :=
    drivers_shape w environment multiplex multiFilesToSend h hr ht
  exact ⟨h1.1, h2.1, h3.1, h4.1, h5.1, h6.1, rfl, by decide, by decide⟩

/-- Instance of the amended C8 in a world where one transfer fails. -/
theorem sweep_sequence_witness :
    worldFirstFails.setupOk ∧ worldFirstFails.reportOk ∧ worldFirstFails.transfersReturn ∧
    RunsBatchesAt (clientQuicMain worldFirstFails "Local") sweepSizes ∧
    RunsBatchesAt (clientTcpMain worldFirstFails "Local") sweepSizes ∧
    RunsBatchesAt (clientTcpTlsMain worldFirstFails "Local") sweepSizes ∧
    RunsBatchesAt (clientHttpMain worldFirstFails "Local") sweepSizes ∧
    RunsBatchesAt (clientHttpsMain worldFirstFails "Local" true 2) sweepSizes ∧
    RunsBatchesAt (clientHttp3Main worldFirstFails "Local" true 2) sweepSizes ∧
    sweepSizes = (List.range 27).map (fun i => 2 ^ i) ∧
    2 ^ 26 = finalMessageSize ∧ finalMessageSize < 2 ^ 27 :=
  ⟨fun _ => ⟨fun _ => rfl, fun _ => rfl, rfl, rfl⟩, fun _ => rfl, fun _ _ => ⟨rfl, rfl, rfl⟩,
    sweep_sequence worldFirstFails "Local" true 2
      (fun _ => ⟨fun _ => rfl, fun _ => rfl, rfl, rfl⟩) (fun _ => rfl) (fun _ _ => ⟨rfl, rfl, rfl⟩)⟩

/-- C8 as stated fails.  With connection setup, resource sampling and every
transfer succeeding but the CSV file of `report` impossible to open,
`clientQuicMain` panics in the report for size 32: batches are run for 1, 2,
4, 8, 16 and 32 only.  With connection setup, resource sampling and the CSV
file succeeding but the first transfer at size 4 never returning, the
iteration of `clientTcpMain` for size 4 never ends: batches are run for 1, 2
and 4 only and the driver does not return.  With the probe `getFirstByteHttp`
at size 4 never returning instead, `clientHttpMain` runs batches for 1 and 2
only.  In all three runs 64 MiB is never measured. -/
theorem sweep_cut_short :
    (worldNoCsv.setupOk ∧ worldNoCsv.transfersReturn ∧
      (clientQuicMain worldNoCsv "Local").2 = Run.panic ∧
      batchSizes (clientQuicMain worldNoCsv "Local").1 = [1, 2, 4, 8, 16, 32] ∧
      ¬ RunsBatchesAt (clientQuicMain worldNoCsv "Local") sweepSizes) ∧
    (worldBlocked.setupOk ∧ worldBlocked.reportOk ∧
      worldBlocked.floodReturns 4 0 = false ∧
      (tcpIteration "TCP" worldBlocked "Local" 4).2 = Step.blocked ∧
      (clientTcpMain worldBlocked "Local").2 = Run.pending ∧
      batchSizes (clientTcpMain worldBlocked "Local").1 = [1, 2, 4] ∧
      ¬ RunsBatchesAt (clientTcpMain worldBlocked "Local") sweepSizes) ∧
    (worldProbeBlocked.setupOk ∧ worldProbeBlocked.reportOk ∧
      worldProbeBlocked.firstByteReturns 4 = false ∧
      (httpIteration worldProbeBlocked "Local" 4 2).2 = Step.blocked ∧
      (clientHttpMain worldProbeBlocked "Local").2 = Run.pending ∧
      batchSizes (clientHttpMain worldProbeBlocked "Local").1 = [1, 2] ∧
      ¬ RunsBatchesAt (clientHttpMain worldProbeBlocked "Local") sweepSizes) :=
  ⟨⟨fun _ => ⟨fun _ => rfl, fun _ => rfl, rfl, rfl⟩, fun _ _ => ⟨rfl, rfl, rfl⟩, by decide,
      by decide, fun hrun => absurd hrun.1 (by decide)⟩,
    ⟨fun _ => ⟨fun _ => rfl, fun _ => rfl, rfl, rfl⟩, fun _ => rfl, rfl, by decide, by decide,
      by decide, fun hrun => absurd hrun.1 (by decide)⟩,
    ⟨fun _ => ⟨fun _ => rfl, fun _ => rfl, rfl, rfl⟩, fun _ => rfl, rfl, by decide, by decide,
      by decide, fun hrun => absurd hrun.1 (by decide)⟩⟩

/-- C9, as the code has it: a failed repetition does not end the batch.  In
every run of each sweep driver, whatever the outside world answers, whenever
repetition `j` of a batch was invoked and returns (a failure or a success)
and `j + 1 < filesToSend` (`multiFilesToSend` in the HTTPS and HTTP/3
drivers), repetition `j + 1` is invoked for that size too.  And when
connection setup and resource sampling succeed, the probe and every transfer
return and `report` can open its CSV file, the transfers invoked are, for
every size of the sweep in order, all the repetitions
`0, ..., filesToSend - 1` (`multiFilesToSend - 1`), whatever the earlier ones
returned; after the last of them the driver goes on to the next size. -/
theorem batch_runs_all_repetitions (w : World) (environment : String) (multiplex : Bool)
    (multiFilesToSend : Nat) :
    (NextRepetitionFollows w.floodReturns filesToSend
        (floodCalls (clientQuicMain w environment).1) ∧
      NextRepetitionFollows w.floodReturns filesToSend
        (floodCalls (clientTcpMain w environment).1) ∧
      NextRepetitionFollows w.floodReturns filesToSend
        (floodCalls (clientTcpTlsMain w environment).1) ∧
      NextRepetitionFollows w.floodHttpReturns filesToSend
        (floodCalls (clientHttpMain w environment).1) ∧
      NextRepetitionFollows w.floodHttpReturns multiFilesToSend
        (floodCalls (clientHttpsMain w environment multiplex multiFilesToSend).1) ∧
      NextRepetitionFollows w.floodHttpReturns multiFilesToSend
        (floodCalls (clientHttp3Main w environment multiplex multiFilesToSend).1)) ∧
    (w.setupOk → w.reportOk → w.transfersReturn →
      MakesFloodCalls (clientQuicMain w environment)
        (sweepSizes.flatMap (fun s => (List.range filesToSend).map (fun j => (s, j)))) ∧
      MakesFloodCalls (clientTcpMain w environment)
        (sweepSizes.flatMap (fun s => (List.range filesToSend).map (fun j => (s, j)))) ∧
      MakesFloodCalls (clientTcpTlsMain w environment)
        (sweepSizes.flatMap (fun s => (List.range filesToSend).map (fun j => (s, j)))) ∧
      MakesFloodCalls (clientHttpMain w environment)
        (sweepSizes.flatMap (fun s => (List.range filesToSend).map (fun j => (s, j)))) ∧
      MakesFloodCalls (clientHttpsMain w environment multiplex multiFilesToSend)
        (sweepSizes.flatMap (fun s => (List.range multiFilesToSend).map (fun j => (s, j)))) ∧
      MakesFloodCalls (clientHttp3Main w environment multiplex multiFilesToSend)
        (sweepSizes.flatMap (fun s => (List.range multiFilesToSend).map (fun j => (s, j))))) := by
  refine ⟨drivers_next w environment multiplex multiFilesToSend, fun h hr ht => ?_⟩
  obtain ⟨h1, h2, h3, h4, h5, h6⟩ :=
    drivers_shape w environment multiplex multiFilesToSend h hr ht
  exact ⟨h1.2, h2.2, h3.2, h4.2, h5.2, h6.2⟩

/-- Instances of the amended C9: the whole list of transfers of
`clientHttpMain` in the world where repetition 0 fails at size 1, and the
run of `clientTcpMain` in the world where the first transfer at size 4 never
returns, in which the batches at sizes 1 and 2 are complete and no second
transfer follows at size 4. -/
theorem batch_runs_all_repetitions_witness :
    (worldFirstFails.setupOk ∧ worldFirstFails.reportOk ∧ worldFirstFails.transfersReturn ∧
      worldFirstFails.floodHttpErr 1 0 = some "Post: connection reset" ∧
      MakesFloodCalls (clientHttpMain worldFirstFails "Local")
        (sweepSizes.flatMap (fun s => (List.range filesToSend).map (fun j => (s, j))))) ∧
    (NextRepetitionFollows worldBlocked.floodReturns filesToSend
        (floodCalls (clientTcpMain worldBlocked "Local").1) ∧
      floodCalls (clientTcpMain worldBlocked "Local").1 =
        (List.range 10).map (fun j => (1, j)) ++ (List.range 10).map (fun j => (2, j)) ++
          [(4, 0)]) :=
  ⟨⟨fun _ => ⟨fun _ => rfl, fun _ => rfl, rfl, rfl⟩, fun _ => rfl, fun _ _ => ⟨rfl, rfl, rfl⟩, rfl,
      ((batch_runs_all_repetitions worldFirstFails "Local" false 10).2
        (fun _ => ⟨fun _ => rfl, fun _ => rfl, rfl, rfl⟩) (fun _ => rfl)
        (fun _ _ => ⟨rfl, rfl, rfl⟩)).2.2.2.1⟩,
    ⟨(batch_runs_all_repetitions worldBlocked "Local" false 10).1.2.1, by decide⟩⟩

/-- C9 as stated fails.  In `clientHttpMain`, with the request of repetition 0
at size 1 returning a failure and every other one succeeding, the nine
further repetitions at size 1 are still invoked before the driver goes on to
size 2.  In `clientQuicMain`, with the stream of size 1 broken so that every
transfer on it returns a failure, all ten repetitions at size 1 are invoked
all the same. -/
theorem failed_repetition_not_last :
    (worldFirstFails.floodHttpReturns 1 0 = true ∧
      worldFirstFails.floodHttpErr 1 0 = some "Post: connection reset" ∧
      (clientHttpMain worldFirstFails "Local").2 = Run.done none ∧
      (floodCalls (clientHttpMain worldFirstFails "Local").1).take 11 =
        [(1, 0), (1, 1), (1, 2), (1, 3), (1, 4), (1, 5), (1, 6), (1, 7), (1, 8), (1, 9),
          (2, 0)]) ∧
    ((∀ fileNum, worldStreamBroken.floodReturns 1 fileNum = true ∧
        worldStreamBroken.floodErr 1 fileNum = some "QUIC: 1 did not finish ") ∧
      (clientQuicMain worldStreamBroken "Local").2 = Run.done none ∧
      (floodCalls (clientQuicMain worldStreamBroken "Local").1).take 11 =
        [(1, 0), (1, 1), (1, 2), (1, 3), (1, 4), (1, 5), (1, 6), (1, 7), (1, 8), (1, 9),
          (2, 0)]) :=
  ⟨⟨rfl, rfl, by decide, by decide⟩, ⟨fun _ => ⟨rfl, rfl⟩, by decide, by decide⟩⟩

/-- C10, the code at the failing input: in `clientQuicMain` and in
`clientHttpMain`, with repetition 0 at size 1 returning a failure and every
other transfer succeeding, a Trial is reported for size 1 all the same. -/
theorem failed_batch_reported :
    worldFirstFails.floodErr 1 0 = some "QUIC: 1 did not finish " ∧
    worldFirstFails.floodHttpErr 1 0 = some "Post: connection reset" ∧
    Event.report "QUIC" "Local" "Raw" 10 1 ∈ (clientQuicMain worldFirstFails "Local").1 ∧
    (reportedSizes (clientQuicMain worldFirstFails "Local").1).head? = some 1 ∧
    Event.report "HTTP/1" "Local" "HTTP" 10 1 ∈ (clientHttpMain worldFirstFails "Local").1 ∧
    (reportedSizes (clientHttpMain worldFirstFails "Local").1).head? = some 1 :=
  ⟨rfl, rfl, by decide, by decide, by decide, by decide⟩

/-! ## Lemmas on the HTTP payload table -/

theorem finalIteraction_eq : finalIteraction = 27 := by decide

theorem pow_two_le_final (i : Nat) : 2 ^ i ≤ finalMessageSize ↔ i ≤ 26 := by
  have h26 : finalMessageSize = 2 ^ 26 := by decide
  rw [h26]
  exact Nat.pow_le_pow_iff_right (by decide)

/-- The filling loop of `main`, started in step with the doubling of `size`
on a table of 27 entries: it ends without a panic and entry `j` holds `2^j`
bytes. -/
theorem fillTable_spec (rand : Nat → Nat → Nat) :
    ∀ (fuel size i : Nat) (table : List (List Nat)), size = 2 ^ i → table.length = 27 →
      finalMessageSize < fuel + size →
      (∀ j, j < i → j < 27 → (table[j]?).map List.length = some (2 ^ j)) →
      ∃ t, fillTable rand fuel size i table = Run.done t ∧ t.length = 27 ∧
        ∀ j, j < 27 → (t[j]?).map List.length = some (2 ^ j) := by
  intro fuel
  induction fuel with
  | zero =>
    intro size i table hsz hlen hfuel hinv
    have hgt : ¬ size ≤ finalMessageSize := by omega
    have hi : ¬ i ≤ 26 := fun h => hgt (hsz ▸ (pow_two_le_final i).mpr h)
    exact ⟨table, by simp [fillTable, hgt], hlen, fun j hj => hinv j (by omega) hj⟩
  | succ fuel ih =>
    intro size i table hsz hlen hfuel hinv
    rw [fillTable]
    by_cases hle : size ≤ finalMessageSize
    · have hi : i ≤ 26 := (pow_two_le_final i).mp (hsz ▸ hle)
      have hit : i < table.length := by omega
      have hpos : 0 < size := by rw [hsz]; exact Nat.pow_pos (by decide)
      simp only [hle, if_true, hit]
      apply ih
      · rw [hsz, pow_succ]
      · simpa using hlen
      · omega
      · intro j hj hj27
        by_cases hji : j = i
        · subst hji
          rw [List.getElem?_set_self hit]
          simp [hsz]
        · rw [List.getElem?_set_ne (Ne.symm hji)]
          exact hinv j (by omega) hj27
    · have hi : ¬ i ≤ 26 := fun h => hle (hsz ▸ (pow_two_le_final i).mpr h)
      exact ⟨table, by simp [hle], hlen, fun j hj => hinv j (by omega) hj⟩

/-- Every event of an HTTP sweep comes from an iteration run at a pair of
`size` and `sizeIndex` of the doubling sequence. -/
theorem httpSweep_mem (body : Nat → Nat → List Event × Step) :
    ∀ (fuel size sizeIndex : Nat) (e : Event), e ∈ (httpSweep body fuel size sizeIndex).1 →
      ∃ p, p ∈ doublingIdx fuel size sizeIndex ∧ e ∈ (body p.1 p.2).1 := by
  intro fuel
  induction fuel with
  | zero =>
    intro size sizeIndex e he
    simp [httpSweep] at he
  | succ fuel ih =>
    intro size sizeIndex e he
    rw [httpSweep] at he
    rw [doublingIdx]
    by_cases hle : size ≤ finalMessageSize
    · simp only [hle, if_true] at he ⊢
      rcases hb : body size sizeIndex with ⟨evs, st⟩
      rw [hb] at he
      cases st with
      | next =>
        simp only [List.mem_append] at he
        rcases he with he | he
        · exact ⟨(size, sizeIndex), List.mem_cons_self _ _, by rw [hb]; exact he⟩
        · obtain ⟨p, hp, hpe⟩ := ih _ _ e he
          exact ⟨p, List.mem_cons_of_mem _ hp, hpe⟩
      | ret err => exact ⟨(size, sizeIndex), List.mem_cons_self _ _, by rw [hb]; exact he⟩
      | panic => exact ⟨(size, sizeIndex), List.mem_cons_self _ _, by rw [hb]; exact he⟩
      | blocked => exact ⟨(size, sizeIndex), List.mem_cons_self _ _, by rw [hb]; exact he⟩
    · simp [hle] at he

/-- The pairs of `size` and `sizeIndex` of the HTTP sweep: `(2^i, i)` with
`i ≤ 26`. -/
theorem httpSweep_mem_pow (body : Nat → Nat → List Event × Step) (e : Event)
    (he : e ∈ (httpSweep body (finalMessageSize + 1) initialMessageSize 0).1) :
    ∃ i, i ≤ 26 ∧ e ∈ (body (2 ^ i) i).1 := by
  obtain ⟨p, hp, hpe⟩ := httpSweep_mem body _ _ _ e he
  rw [doublingIdx_sweep] at hp
  obtain ⟨i, hi, rfl⟩ := List.mem_map.mp hp
  exact ⟨i, by have := List.mem_range.mp hi; omega, hpe⟩

theorem finishBatch_floodHttpCallOf (w : World) (protocol environment kind : String)
    (n size : Nat) (err : Option String) :
    ∀ e ∈ (finishBatch w protocol environment kind n size err).1, floodHttpCallOf e = none := by
  intro e he
  unfold finishBatch at he
  cases err with
  | some x => simp at he; subst he; rfl
  | none =>
    simp only at he
    cases h1 : w.cpuGet size true with
    | some e1 => simp [h1] at he
    | none =>
      cases h2 : w.memoryGet size true with
      | some e2 => simp [h1, h2] at he
      | none =>
        simp only [h1, h2, report] at he
        split at he
        · split at he
          · simp at he; subst he; rfl
          · simp at he; rcases he with rfl | rfl <;> rfl
        · simp at he; subst he; rfl

theorem floodHttpBatch_mem (protocol : String) (returns : Nat → Bool)
    (res : Nat → Option String) (size sizeIndex : Nat) :
    ∀ (remaining fileNum : Nat) (err : Option String) (e : Event),
      e ∈ (floodHttpBatch protocol returns res size sizeIndex remaining fileNum err).1 →
      ∃ j, e = Event.floodHttp protocol size sizeIndex j := by
  intro remaining
  induction remaining with
  | zero =>
    intro fileNum err e he
    simp [floodHttpBatch] at he
  | succ r ih =>
    intro fileNum err e he
    rw [floodHttpBatch] at he
    by_cases hret : returns fileNum = true
    · simp only [hret, if_true, List.mem_cons] at he
      rcases he with rfl | he
      · exact ⟨fileNum, rfl⟩
      · exact ih _ _ e he
    · simp only [hret, Bool.false_eq_true, if_false, List.mem_singleton] at he
      exact ⟨fileNum, he⟩

theorem floodHttpMultiplex_mem (protocol : String) (returns : Nat → Bool)
    (res : Nat → Option String) (lastWriter size sizeIndex n : Nat) (e : Event)
    (he : e ∈ (floodHttpMultiplex protocol returns res lastWriter size sizeIndex n).1) :
    ∃ j, e = Event.floodHttp protocol size sizeIndex j := by
  simp only [floodHttpMultiplex, List.mem_map] at he
  obtain ⟨j, -, rfl⟩ := he
  exact ⟨j, rfl⟩

/-- The events of an iteration of an HTTP driver, whichever way it ends: the
probe, the start of the batch, transfers given the `size` and `sizeIndex` of
the iteration, and what follows the batch. -/
theorem iteration_floodHttp (probe : Event) (size sizeIndex : Nat) (bevs fevs : List Event)
    (hp : floodHttpCallOf probe = none)
    (hb : ∀ e ∈ bevs, ∃ protocol j, e = Event.floodHttp protocol size sizeIndex j)
    (hf : ∀ e ∈ fevs, floodHttpCallOf e = none)
    (e : Event) (he : e ∈ probe :: Event.floodStart size :: bevs ++ fevs) (s i : Nat)
    (hc : floodHttpCallOf e = some (s, i)) : s = size ∧ i = sizeIndex := by
  simp only [List.cons_append, List.mem_cons, List.mem_append] at he
  rcases he with rfl | rfl | he | he
  · rw [hp] at hc; simp at hc
  · simp [floodHttpCallOf] at hc
  · obtain ⟨protocol, j, rfl⟩ := hb e he
    simp only [floodHttpCallOf, Option.some.injEq, Prod.mk.injEq] at hc
    exact ⟨hc.1.symm, hc.2.symm⟩
  · rw [hf e he] at hc
    simp at hc

/-- In an iteration of the HTTP drivers, every invocation of `floodHttp` is
given the `size` and the `sizeIndex` of that iteration. -/
theorem httpIteration_floodHttp (w : World) (environment : String) (size sizeIndex : Nat)
    (e : Event) (he : e ∈ (httpIteration w environment size sizeIndex).1) (s i : Nat)
    (hc : floodHttpCallOf e = some (s, i)) : s = size ∧ i = sizeIndex := by
  unfold httpIteration at he
  cases hsb : sampleBefore w size with
  | some x => simp [hsb] at he
  | none =>
    simp only [hsb] at he
    by_cases hfb : w.firstByteReturns size = true
    swap
    · simp only [hfb, Bool.false_eq_true, if_false, List.mem_singleton] at he
      subst he
      simp [floodHttpCallOf] at hc
    simp only [hfb, if_true] at he
    have hbm := floodHttpBatch_mem "HTTP/1" (w.floodHttpReturns size) (w.floodHttpErr size) size
      sizeIndex filesToSend 0 none
    cases hb2 : (floodHttpBatch "HTTP/1" (w.floodHttpReturns size) (w.floodHttpErr size) size
        sizeIndex filesToSend 0 none).2 with
    | none =>
      simp only [hb2] at he
      rw [← List.append_nil (floodHttpBatch _ _ _ _ _ _ _ _).1] at he
      exact iteration_floodHttp (Event.getFirstByteHttp "HTTP/1") size sizeIndex _ [] rfl
        (fun e he => ⟨_, hbm e he⟩) (fun e he => by simp at he) e he s i hc
    | some err =>
      simp only [hb2] at he
      exact iteration_floodHttp (Event.getFirstByteHttp "HTTP/1") size sizeIndex _ _ rfl
        (fun e he => ⟨_, hbm e he⟩) (finishBatch_floodHttpCallOf _ _ _ _ _ _ _) e he s i hc

theorem multiIteration_floodHttp (protocolName : String) (w : World) (environment : String)
    (multiplex : Bool) (n size sizeIndex : Nat)
    (e : Event) (he : e ∈ (multiIteration protocolName w environment multiplex n size sizeIndex).1)
    (s i : Nat) (hc : floodHttpCallOf e = some (s, i)) : s = size ∧ i = sizeIndex := by
  unfold multiIteration at he
  cases hsb : sampleBefore w size with
  | some x => simp [hsb] at he
  | none =>
    simp only [hsb] at he
    by_cases hfb : w.firstByteReturns size = true
    swap
    · simp only [hfb, Bool.false_eq_true, if_false, List.mem_singleton] at he
      subst he
      simp [floodHttpCallOf] at hc
    simp only [hfb, if_true] at he
    cases multiplex with
    | false =>
      simp only [Bool.false_eq_true, if_false] at he
      have hbm := floodHttpBatch_mem protocolName (w.floodHttpReturns size) (w.floodHttpErr size)
        size sizeIndex n 0 none
      cases hb2 : (floodHttpBatch protocolName (w.floodHttpReturns size) (w.floodHttpErr size)
          size sizeIndex n 0 none).2 with
      | none =>
        simp only [hb2] at he
        rw [← List.append_nil (floodHttpBatch _ _ _ _ _ _ _ _).1] at he
        exact iteration_floodHttp (Event.getFirstByteHttp protocolName) size sizeIndex _ [] rfl
          (fun e he => ⟨_, hbm e he⟩) (fun e he => by simp at he) e he s i hc
      | some err =>
        simp only [hb2] at he
        exact iteration_floodHttp (Event.getFirstByteHttp protocolName) size sizeIndex _ _ rfl
          (fun e he => ⟨_, hbm e he⟩) (finishBatch_floodHttpCallOf _ _ _ _ _ _ _) e he s i hc
    | true =>
      simp only [if_true] at he
      have hbm := floodHttpMultiplex_mem protocolName (w.floodHttpReturns size)
        (w.floodHttpErr size) (w.lastWriter size) size sizeIndex n
      cases hb2 : (floodHttpMultiplex protocolName (w.floodHttpReturns size)
          (w.floodHttpErr size) (w.lastWriter size) size sizeIndex n).2 with
      | none =>
        simp only [hb2] at he
        rw [← List.append_nil (floodHttpMultiplex _ _ _ _ _ _ _).1] at he
        exact iteration_floodHttp (Event.getFirstByteHttp protocolName) size sizeIndex _ [] rfl
          (fun e he => ⟨_, hbm e he⟩) (fun e he => by simp at he) e he s i hc
      | some err =>
        simp only [hb2] at he
        exact iteration_floodHttp (Event.getFirstByteHttp protocolName) size sizeIndex _ _ rfl
          (fun e he => ⟨_, hbm e he⟩) (finishBatch_floodHttpCallOf _ _ _ _ _ _ _) e he s i hc

/-! ## Claims on the HTTP payload table -/

/-- C14 (HTTP payload table invariant): whatever the random bytes, `main`
builds the table without a panic, it has exactly 27 entries, and entry `i`
has length `2^i` for every `i` in `0..26`.  The loop of the HTTP sweep
drivers runs its iterations only at pairs `size = 2^i`, `sizeIndex = i` with
`i ≤ 26`; and in every run of `clientHttpMain`, `clientHttpsMain` and
`clientHttp3Main`, whatever the outside world answers, each invocation of
`floodHttp` gets a `sizeIndex ≤ 26` with `size = 2^sizeIndex`, so the index
expression `httpByteBuffer[sizeIndex]` is in range and the body posted has
exactly `size` bytes. -/
theorem http_payload_table (rand : Nat → Nat → Nat) (w : World) (environment : String)
    (multiplex : Bool) (multiFilesToSend : Nat) :
    ∃ table, httpByteBuffer rand = Run.done table ∧ table.length = 27 ∧
      (∀ i, i < 27 → ∃ entry, table[i]? = some entry ∧ entry.length = 2 ^ i) ∧
      (∀ (body : Nat → Nat → List Event × Step) (e : Event),
        e ∈ (httpSweep body (finalMessageSize + 1) initialMessageSize 0).1 →
        ∃ i, i ≤ 26 ∧ e ∈ (body (2 ^ i) i).1) ∧
      (∀ tr, tr ∈ [(clientHttpMain w environment).1,
            (clientHttpsMain w environment multiplex multiFilesToSend).1,
            (clientHttp3Main w environment multiplex multiFilesToSend).1] →
        ∀ e, e ∈ tr → ∀ size sizeIndex, floodHttpCallOf e = some (size, sizeIndex) →
          sizeIndex ≤ 26 ∧ size = 2 ^ sizeIndex ∧
          ∃ body, floodHttpBody table sizeIndex = some body ∧ body.length = size) := by
  obtain ⟨table, hrun, hlen, hent⟩ := fillTable_spec rand (finalMessageSize + 1) 1 0
    (List.replicate finalIteraction []) rfl (by rw [List.length_replicate, finalIteraction_eq])
    (by omega) (fun j hj => by omega)
  have hentry : ∀ i, i < 27 → ∃ entry, table[i]? = some entry ∧ entry.length = 2 ^ i := by
    intro i hi
    have h := hent i hi
    cases hti : table[i]? with
    | none => rw [hti] at h; simp at h
    | some entry =>
      rw [hti] at h
      exact ⟨entry, rfl, by simpa using h⟩
  refine ⟨table, hrun, hlen, hentry, fun body e he => httpSweep_mem_pow body e he, ?_⟩
  intro tr htr e he size sizeIndex hc
  have key : ∃ i, i ≤ 26 ∧ size = 2 ^ i ∧ sizeIndex = i := by
    simp only [List.mem_cons, List.mem_singleton, List.not_mem_nil, or_false] at htr
    rcases htr with rfl | rfl | rfl
    · obtain ⟨i, hi, hei⟩ := httpSweep_mem_pow _ e he
      have := httpIteration_floodHttp w environment _ _ e hei size sizeIndex hc
      exact ⟨i, hi, this.1, this.2⟩
    · obtain ⟨i, hi, hei⟩ := httpSweep_mem_pow _ e he
      have := multiIteration_floodHttp _ w environment multiplex multiFilesToSend _ _ e hei
        size sizeIndex hc
      exact ⟨i, hi, this.1, this.2⟩
    · obtain ⟨i, hi, hei⟩ := httpSweep_mem_pow _ e he
      have := multiIteration_floodHttp _ w environment multiplex multiFilesToSend _ _ e hei
        size sizeIndex hc
      exact ⟨i, hi, this.1, this.2⟩
  obtain ⟨i, hi, hsz, hidx⟩ := key
  subst hidx
  obtain ⟨entry, hte, hel⟩ := hentry sizeIndex (by omega)
  exact ⟨hi, hsz, entry, hte, by rw [hel, hsz]⟩

end QuicBench
